import Mathlib

/-!
# Verification of `news_recommender` (`fetch_articles.py`)

Shallow embedding of `src/news_recommender/data_ingestion/fetch_articles.py`
and proofs about it.

Conventions used throughout:

* Python floats drawn by `truncnorm.rvs` are modelled as rationals supplied as
  an explicit list (`samples`), together with the hypotheses that
  `truncnorm.rvs(a, b, loc, scale, size=num_categories)` guarantees: the list
  has length `num_categories` and every sample lies in
  `[lower_bound, upper_bound] = [0, target_num]`.
* The draws of `np.random.choice` are modelled by an oracle `ℕ → ℕ`; the draw
  at loop step `k` is `oracle k` reduced modulo the size of the population
  being drawn from, so quantifying over all oracles covers every possible
  sequence of draws.
* A Python exception that escapes a function is modelled as `none`
  (respectively `Except.error ()`); a normal return is `some`/`Except.ok`.
* Machine integers are `ℤ`/`ℕ` (Python integers are unbounded, so no modular
  arithmetic is needed).
-/

/-! ## Budget allocator: `get_num_articles` -/

/-- Python's built-in `round` on a float (also `numpy.float64.__round__`):
round half to even ("banker's rounding"), modelled on `ℚ`. -/
def pyRound (q : ℚ) : ℤ :=
  let f := ⌊q⌋
  let r := q - (f : ℚ)
  if r < 1/2 then f
  else if r = 1/2 then (if f % 2 = 0 then f else f + 1)
  else f + 1

/-- The residual-correction loop of `get_num_articles` (lines 56–69).

The Python loop runs `while difference != 0`; each iteration moves
`difference` by exactly one toward `0`, so the loop runs for exactly
`|difference|` iterations.  `fuel` is that exact iteration budget (the
caller passes `difference.natAbs`), so the `fuel = 0, difference ≠ 0`
branch is unreachable.  `none` models the `ValueError` raised by
`np.random.choice(eligible_indices)` when `eligible_indices` is empty.

* `difference > 0`: `idx_to_change = np.random.choice(num_categories)`,
  `rounded_samples[idx_to_change] += 1`, `difference -= 1`.
* `difference < 0`: `eligible_indices = [i for i, count in
  enumerate(rounded_samples) if count > 0]`,
  `idx_to_change = np.random.choice(eligible_indices)`,
  `rounded_samples[idx_to_change] -= 1`, `difference += 1`. -/
def correctionLoop (num_categories : ℕ) (oracle : ℕ → ℕ) :
    ℕ → ℕ → ℤ → List ℤ → Option (List ℤ)
  | fuel, step, difference, qs =>
    if difference = 0 then some qs
    else
      match fuel with
      | 0 => none
      | fuel' + 1 =>
        if 0 < difference then
          let idx := oracle step % num_categories
          correctionLoop num_categories oracle fuel' (step + 1) (difference - 1)
            (qs.set idx (qs.getD idx 0 + 1))
        else
          let eligible := (List.range qs.length).filter (fun i => decide (0 < qs.getD i 0))
          if eligible.isEmpty then none
          else
            let idx := eligible.getD (oracle step % eligible.length) 0
            correctionLoop num_categories oracle fuel' (step + 1) (difference + 1)
              (qs.set idx (qs.getD idx 0 - 1))

/-- Model of `get_num_articles(num_categories, target_num)` (lines 37–71).

* `num_categories = 0`: `target_num / num_categories` raises
  `ZeroDivisionError` → `none`.
* `target_num = 0` (with `num_categories ≥ 1`): `articles_per_cat = 0.0`,
  `std_dev = 0.0`, and `a = (lower_bound - articles_per_cat) / std_dev`
  raises `ZeroDivisionError: float division by zero` → `none`.
* Otherwise `rounded_samples = [max(0, round(sample)) for sample in samples]`,
  `difference = target_num - sum(rounded_samples)`, then the correction
  loop. -/
def get_num_articles (num_categories target_num : ℕ) (samples : List ℚ)
    (oracle : ℕ → ℕ) : Option (List ℤ) :=
  if num_categories = 0 then none
  else if target_num = 0 then none
  else
    let rounded_samples := samples.map (fun s => max 0 (pyRound s))
    let current_sum := rounded_samples.sum
    let difference : ℤ := (target_num : ℤ) - current_sum
    correctionLoop num_categories oracle difference.natAbs 0 difference rounded_samples

/-! ### Helper lemmas about the correction loop -/

lemma sum_set_int (l : List ℤ) (i : ℕ) (v : ℤ) (h : i < l.length) :
    (l.set i v).sum = l.sum + v - l.getD i 0 := by
  induction l generalizing i with
  | nil => simp at h
  | cons a t ih =>
    cases i with
    | zero => simp [List.set, List.getD]; ring
    | succ j =>
      simp only [List.set, List.sum_cons, List.getD_cons_succ]
      rw [ih j (by simpa using h)]
      ring

lemma exists_pos_of_sum_pos (l : List ℤ) (hnn : ∀ q ∈ l, 0 ≤ q) (hpos : 0 < l.sum) :
    ∃ i, i < l.length ∧ 0 < l.getD i 0 := by
  induction l with
  | nil => simp at hpos
  | cons a t ih =>
    by_cases ha : 0 < a
    · exact ⟨0, by simp, by simpa using ha⟩
    · have ha' : a = 0 := le_antisymm (not_lt.mp ha) (hnn a (by simp))
      have : 0 < t.sum := by
        have := hpos; simp [List.sum_cons, ha'] at this; simpa using this
      obtain ⟨i, hi, hpos'⟩ := ih (fun q hq => hnn q (by simp [hq])) this
      exact ⟨i + 1, by simpa using hi, by simpa using hpos'⟩

lemma mem_set_int {l : List ℤ} {i : ℕ} {v q : ℤ} (h : q ∈ l.set i v) :
    q ∈ l ∨ q = v := by
  rcases List.mem_or_eq_of_mem_set h with h' | h'
  · exact Or.inl h'
  · exact Or.inr h'

lemma getD_nonneg (l : List ℤ) (hnn : ∀ q ∈ l, 0 ≤ q) (i : ℕ) : 0 ≤ l.getD i 0 := by
  induction l generalizing i with
  | nil => simp
  | cons a t ih =>
    cases i with
    | zero => simpa using hnn a (by simp)
    | succ j => simpa using ih (fun q hq => hnn q (by simp [hq])) j

lemma getD_mem {α : Type _} (l : List α) (i : ℕ) (d : α) (h : i < l.length) :
    l.getD i d ∈ l := by
  induction l generalizing i with
  | nil => simp at h
  | cons a t ih =>
    cases i with
    | zero => simp
    | succ j =>
      simp only [List.getD_cons_succ]
      exact List.mem_cons_of_mem _ (ih j (by simpa using h))

/-- Core invariant of the correction loop: if the fuel is exactly the residual,
the residual tracks `target - sum`, and all quotas are non-negative, then the
loop succeeds and produces `num_categories` non-negative quotas summing to the
target. -/
lemma correctionLoop_ok (num_categories : ℕ) (oracle : ℕ → ℕ) (t : ℤ)
    (hnc : 0 < num_categories) (ht : 0 < t) :
    ∀ fuel step (d : ℤ) (qs : List ℤ), fuel = d.natAbs → d = t - qs.sum →
      qs.length = num_categories → (∀ q ∈ qs, 0 ≤ q) →
      ∃ qs', correctionLoop num_categories oracle fuel step d qs = some qs' ∧
        qs'.length = num_categories ∧ qs'.sum = t ∧ ∀ q ∈ qs', 0 ≤ q := by
  intro fuel
  induction fuel with
  | zero =>
    intro step d qs hfuel hd hlen hnn
    have hd0 : d = 0 := by omega
    refine ⟨qs, ?_, hlen, by omega, hnn⟩
    rw [correctionLoop]
    simp [hd0]
  | succ fuel' ih =>
    intro step d qs hfuel hd hlen hnn
    have hdne : d ≠ 0 := by
      intro h0; rw [h0] at hfuel; simp at hfuel
    rw [correctionLoop]
    simp only [hdne, if_false]
    by_cases hdpos : 0 < d
    · simp only [hdpos, if_true]
      set idx := oracle step % num_categories with hidx
      have hidxlt : idx < qs.length := by
        rw [hlen]; exact Nat.mod_lt _ hnc
      set qs2 := qs.set idx (qs.getD idx 0 + 1) with hqs2
      have hsum2 : qs2.sum = qs.sum + 1 := by
        rw [hqs2, sum_set_int qs idx _ hidxlt]; ring
      have hlen2 : qs2.length = num_categories := by
        rw [hqs2, List.length_set, hlen]
      have hnn2 : ∀ q ∈ qs2, 0 ≤ q := by
        intro q hq
        rcases mem_set_int hq with h' | h'
        · exact hnn q h'
        · have : 0 ≤ qs.getD idx 0 := getD_nonneg qs hnn idx
          omega
      obtain ⟨qs', h1, h2, h3, h4⟩ := ih (step + 1) (d - 1) qs2
        (by omega) (by rw [hsum2]; omega) hlen2 hnn2
      exact ⟨qs', h1, h2, h3, h4⟩
    · have hdneg : d < 0 := by omega
      simp only [hdpos, if_false]
      have hsumpos : 0 < qs.sum := by omega
      obtain ⟨j, hjlt, hjpos⟩ := exists_pos_of_sum_pos qs hnn hsumpos
      set eligible := (List.range qs.length).filter (fun i => decide (0 < qs.getD i 0))
        with helig
      have hjmem : j ∈ eligible := by
        rw [helig, List.mem_filter]
        exact ⟨List.mem_range.mpr hjlt, by simpa using hjpos⟩
      have hene : eligible ≠ [] := fun h => by simp [h] at hjmem
      have hlenpos : 0 < eligible.length := List.length_pos.mpr hene
      have heIsEmpty : eligible.isEmpty = false :=
        Bool.eq_false_iff.mpr (fun h => hene (List.isEmpty_iff.mp h))
      simp only [heIsEmpty, Bool.false_eq_true, if_false]
      set idx := eligible.getD (oracle step % eligible.length) 0 with hidxdef
      have hidxmem : idx ∈ eligible := by
        have hlt : oracle step % eligible.length < eligible.length :=
          Nat.mod_lt _ hlenpos
        exact getD_mem eligible _ 0 hlt
      have hidxlt : idx < qs.length := by
        have := (List.mem_filter.mp (helig ▸ hidxmem)).1
        exact List.mem_range.mp this
      have hidxpos : 0 < qs.getD idx 0 := by
        have := (List.mem_filter.mp (helig ▸ hidxmem)).2
        simpa using this
      set qs2 := qs.set idx (qs.getD idx 0 - 1) with hqs2
      have hsum2 : qs2.sum = qs.sum - 1 := by
        rw [hqs2, sum_set_int qs idx _ hidxlt]; ring
      have hlen2 : qs2.length = num_categories := by
        rw [hqs2, List.length_set, hlen]
      have hnn2 : ∀ q ∈ qs2, 0 ≤ q := by
        intro q hq
        rcases mem_set_int hq with h' | h'
        · exact hnn q h'
        · omega
      obtain ⟨qs', h1, h2, h3, h4⟩ := ih (step + 1) (d + 1) qs2
        (by omega) (by rw [hsum2]; omega) hlen2 hnn2
      exact ⟨qs', h1, h2, h3, h4⟩

/-- Success of `get_num_articles` for `num_categories ≥ 1`, `target_num ≥ 1`:
shared workhorse behind the allocator claims. -/
lemma get_num_articles_ok (num_categories target_num : ℕ) (samples : List ℚ)
    (oracle : ℕ → ℕ) (hnc : 1 ≤ num_categories) (ht : 1 ≤ target_num)
    (hlen : samples.length = num_categories) :
    ∃ qs, get_num_articles num_categories target_num samples oracle = some qs ∧
      qs.length = num_categories ∧ qs.sum = (target_num : ℤ) ∧ ∀ q ∈ qs, 0 ≤ q := by
  unfold get_num_articles
  have h1 : ¬ num_categories = 0 := by omega
  have h2 : ¬ target_num = 0 := by omega
  simp only [h1, h2, if_false]
  set rounded := samples.map (fun s => max 0 (pyRound s)) with hrounded
  refine correctionLoop_ok num_categories oracle (target_num : ℤ) (by omega)
    (by exact_mod_cast ht) _ 0 _ rounded rfl rfl ?_ ?_
  · rw [hrounded, List.length_map, hlen]
  · intro q hq
    rw [hrounded, List.mem_map] at hq
    obtain ⟨s, _, rfl⟩ := hq
    exact le_max_left 0 _

/-! ### Claims C1, C5, C6, C7 -/

/-- Claim C1, counterexample to the claim as stated.  The claim quantifies
over every `target ≥ 0`, but at `target = 0` (here with `categoryCount = 1`)
`get_num_articles` raises `ZeroDivisionError` (`std_dev` is `0.0` and
`a = (lower_bound - articles_per_cat) / std_dev` divides by it), so it does
not return a sequence at all. -/
theorem allocate_contract_cex_target_zero :
    get_num_articles 1 0 [0] (fun _ => 0) = none := by decide

/-- Claim C1 (amended): for every `categoryCount ≥ 1` and every
`target ≥ 1`, and for every outcome of the random draws (the truncated-normal
samples, all in `[0, target]`, and the `np.random.choice` draws), `allocate`
(`get_num_articles`) returns a sequence of exactly `categoryCount` integers,
each `≥ 0`, whose sum is exactly `target`.  (At `target = 0` the function
instead raises `ZeroDivisionError`.) -/
theorem allocate_contract (num_categories target_num : ℕ) (samples : List ℚ)
    (oracle : ℕ → ℕ) (hnc : 1 ≤ num_categories) (ht : 1 ≤ target_num)
    (hlen : samples.length = num_categories)
    (hbounds : ∀ s ∈ samples, 0 ≤ s ∧ s ≤ (target_num : ℚ)) :
    ∃ qs, get_num_articles num_categories target_num samples oracle = some qs ∧
      qs.length = num_categories ∧ qs.sum = (target_num : ℤ) ∧ ∀ q ∈ qs, 0 ≤ q :=
  get_num_articles_ok num_categories target_num samples oracle hnc ht hlen

/-- Witness for `allocate_contract` at `categoryCount = 2`, `target = 3`,
samples `[1, 3/2]`, oracle constantly `0`. -/
theorem allocate_contract_witness :
    (1 ≤ 2 ∧ 1 ≤ 3 ∧ ([(1 : ℚ), 3/2] : List ℚ).length = 2 ∧
      ∀ s ∈ [(1 : ℚ), 3/2], 0 ≤ s ∧ s ≤ ((3 : ℕ) : ℚ)) ∧
    ∃ qs, get_num_articles 2 3 [1, 3/2] (fun _ => 0) = some qs ∧
      qs.length = 2 ∧ qs.sum = ((3 : ℕ) : ℤ) ∧ ∀ q ∈ qs, 0 ≤ q :=
  ⟨⟨by norm_num, by norm_num, by norm_num, by norm_num⟩,
    allocate_contract 2 3 [1, 3/2] (fun _ => 0) (by norm_num) (by norm_num)
      (by norm_num) (by norm_num)⟩

/-- Claim C5, counterexample to the claim as stated.  The claim says
`allocate` with `target == 0` returns (does not fail) all-zero quotas; in
fact `std_dev = articles_per_cat / 2 = 0.0`, so computing
`a = (lower_bound - articles_per_cat) / std_dev` raises
`ZeroDivisionError: float division by zero` before any sampling. -/
theorem allocate_target_zero_cex :
    get_num_articles 3 0 [0, 0, 0] (fun _ => 0) = none := by decide

/-- Claim C5 (amended): for every `categoryCount ≥ 1`, `allocate`
(`get_num_articles`) called with `target == 0` does not return all-zero
quotas: it raises `ZeroDivisionError` (modelled as `none`), because the
standard deviation is `0.0` and the truncation bounds `a`, `b` divide by it. -/
theorem allocate_target_zero_raises (num_categories : ℕ) (samples : List ℚ)
    (oracle : ℕ → ℕ) (hnc : 1 ≤ num_categories) :
    get_num_articles num_categories 0 samples oracle = none := by
  unfold get_num_articles
  have h1 : ¬ num_categories = 0 := by omega
  simp [h1]

/-- Witness for `allocate_target_zero_raises` at `categoryCount = 4`. -/
theorem allocate_target_zero_raises_witness :
    1 ≤ 4 ∧ get_num_articles 4 0 [0, 0, 0, 0] (fun _ => 0) = none :=
  ⟨by norm_num, allocate_target_zero_raises 4 [0, 0, 0, 0] (fun _ => 0) (by norm_num)⟩

/-- Claim C6: for `categoryCount == 1` and any `target ≥ 1`, for every
outcome of the random draws, `allocate` (`get_num_articles`) returns the
single-element sequence `[target]`; in particular `allocate(1, 20)` returns
`[20]`. -/
theorem allocate_single_category (target_num : ℕ) (samples : List ℚ)
    (oracle : ℕ → ℕ) (ht : 1 ≤ target_num) (hlen : samples.length = 1)
    (hbounds : ∀ s ∈ samples, 0 ≤ s ∧ s ≤ (target_num : ℚ)) :
    get_num_articles 1 target_num samples oracle = some [(target_num : ℤ)] := by
  obtain ⟨qs, h1, h2, h3, _⟩ :=
    get_num_articles_ok 1 target_num samples oracle le_rfl ht hlen
  match qs, h2 with
  | [a], _ =>
    have : a = (target_num : ℤ) := by simpa using h3
    rw [h1, this]

/-- Witness for `allocate_single_category`: `allocate(1, 20)` with sample
draw `7.3` returns `[20]`. -/
theorem allocate_single_category_witness :
    (1 ≤ 20 ∧ ([(73 : ℚ)/10] : List ℚ).length = 1 ∧
      ∀ s ∈ [(73 : ℚ)/10], 0 ≤ s ∧ s ≤ ((20 : ℕ) : ℚ)) ∧
    get_num_articles 1 20 [73/10] (fun _ => 0) = some [((20 : ℕ) : ℤ)] :=
  ⟨⟨by norm_num, by norm_num, by norm_num⟩,
    allocate_single_category 20 [73/10] (fun _ => 0) (by norm_num) (by norm_num)
      (by norm_num)⟩

/-- Claim C7: for every `categoryCount ≥ 1` and `target ≥ 1`, and every
outcome of the random draws, the residual-correction loop of
`get_num_articles` terminates normally (`none` would model the `ValueError`
of `np.random.choice([])`, and the fuel of `correctionLoop` is the exact
number of loop iterations, `|difference|`): whenever the residual is
negative at least one quota is positive, so the decrement branch never
draws from an empty eligible-index set. -/
theorem allocate_correction_terminates (num_categories target_num : ℕ)
    (samples : List ℚ) (oracle : ℕ → ℕ) (hnc : 1 ≤ num_categories)
    (ht : 1 ≤ target_num) (hlen : samples.length = num_categories)
    (hbounds : ∀ s ∈ samples, 0 ≤ s ∧ s ≤ (target_num : ℚ)) :
    (get_num_articles num_categories target_num samples oracle).isSome = true := by
  obtain ⟨qs, h1, _, _, _⟩ :=
    get_num_articles_ok num_categories target_num samples oracle hnc ht hlen
  rw [h1]; rfl

/-- Witness for `allocate_correction_terminates` at `categoryCount = 3`,
`target = 10`, samples `[5, 5, 5]` (sum of rounded samples overshoots the
target, so the decrement branch actually runs). -/
theorem allocate_correction_terminates_witness :
    (1 ≤ 3 ∧ 1 ≤ 10 ∧ ([(5 : ℚ), 5, 5] : List ℚ).length = 3 ∧
      ∀ s ∈ [(5 : ℚ), 5, 5], 0 ≤ s ∧ s ≤ ((10 : ℕ) : ℚ)) ∧
    (get_num_articles 3 10 [5, 5, 5] (fun _ => 1)).isSome = true :=
  ⟨⟨by norm_num, by norm_num, by norm_num, by norm_num⟩,
    allocate_correction_terminates 3 10 [5, 5, 5] (fun _ => 1) (by norm_num)
      (by norm_num) (by norm_num) (by norm_num)⟩

/-! ## JSON values

The cache and article files hold JSON produced by Python's `json.dump(data,
f, ensure_ascii=False, indent=4)` and read back by `json.load`.  JSON values
are modelled by `JsonVal`; numbers are modelled as integers (the integer case
is the one exercised by the repository: API envelopes carry `totalResults`
and the like).  Python `None` / JSON `null` is `JsonVal.null`. -/

inductive JsonVal where
  | null
  | bool (b : Bool)
  | int (n : ℤ)
  | str (s : List Char)
  | arr (elems : List JsonVal)
  | obj (entries : List (List Char × JsonVal))

/-- Python truthiness of a JSON value (`if cached_data:`, `if data and ...`):
`None`, `False`, `0`, `""`, `[]` and `` \x7b\x7d `` are falsy, everything
else truthy. -/
def truthy : JsonVal → Bool
  | .null => false
  | .bool b => b
  | .int n => decide (n ≠ 0)
  | .str s => !s.isEmpty
  | .arr xs => !xs.isEmpty
  | .obj kvs => !kvs.isEmpty

/-! ### Decimal representation of integers (Python `repr`/f-string format) -/

def digitChar (n : ℕ) : Char := Char.ofNat (48 + n)

def natToDecAux : ℕ → ℕ → List Char
  | 0, _ => []
  | fuel + 1, n =>
    if n < 10 then [digitChar n]
    else natToDecAux fuel (n / 10) ++ [digitChar (n % 10)]

/-- Decimal digits of a natural number, most significant first. -/
def natToDec (n : ℕ) : List Char := natToDecAux (n + 1) n

/-- Python's decimal rendering of an `int` (as in `f"{page_size}"`). -/
def intToDec (n : ℤ) : List Char :=
  if n < 0 then '-' :: natToDec n.natAbs else natToDec n.toNat

/-! ### The writer side of `json.dump(_, ensure_ascii=False, indent=4)` -/

def hexDigitChar (n : ℕ) : Char :=
  if n < 10 then Char.ofNat (48 + n) else Char.ofNat (87 + n)

/-- Escaping of one character inside a JSON string, as done by
`json.dump(..., ensure_ascii=False)`: `"` and `\` are escaped, the control
characters below `0x20` use the short escapes or `\u00XX`, and every other
character is written literally. -/
def escChar (c : Char) : List Char :=
  if c = '"' then ['\\', '"']
  else if c = '\\' then ['\\', '\\']
  else if c = '\x08' then ['\\', 'b']
  else if c = '\x09' then ['\\', 't']
  else if c = '\x0a' then ['\\', 'n']
  else if c = '\x0c' then ['\\', 'f']
  else if c = '\x0d' then ['\\', 'r']
  else if c.toNat < 32 then
    ['\\', 'u', '0', '0', hexDigitChar (c.toNat / 16), hexDigitChar (c.toNat % 16)]
  else [c]

def escString : List Char → List Char
  | [] => []
  | c :: cs => escChar c ++ escString cs

def dumpString (s : List Char) : List Char := '"' :: (escString s ++ ['"'])

/-- Padding emitted by `indent=4` at nesting level `lvl`. -/
def pad (lvl : ℕ) : List Char := List.replicate (4 * lvl) ' '

mutual

/-- Serialization of a JSON value at nesting level `lvl`, following CPython's
`json.dump(data, f, ensure_ascii=False, indent=4)`: with `indent` set the
item separator is `","` followed by a newline and padding, the key separator
is `": "`, and empty containers print as `[]` / `\x7b\x7d`. -/
def dumpVal : JsonVal → ℕ → List Char
  | .null, _ => "null".data
  | .bool true, _ => "true".data
  | .bool false, _ => "false".data
  | .int n, _ => intToDec n
  | .str s, _ => dumpString s
  | .arr [], _ => "[]".data
  | .arr (x :: xs), lvl =>
    '[' :: '\n' :: (pad (lvl + 1) ++ dumpVal x (lvl + 1)) ++ dumpArrRest xs (lvl + 1) ++
      '\n' :: (pad lvl ++ [']'])
  | .obj [], _ => ['\x7b', '\x7d']
  | .obj ((k, v) :: kvs), lvl =>
    '\x7b' :: '\n' ::
      (pad (lvl + 1) ++ dumpString k ++ ':' :: ' ' :: dumpVal v (lvl + 1)) ++
      dumpObjRest kvs (lvl + 1) ++ '\n' :: (pad lvl ++ ['\x7d'])

def dumpArrRest : List JsonVal → ℕ → List Char
  | [], _ => []
  | x :: xs, lvl => ',' :: '\n' :: (pad lvl ++ dumpVal x lvl) ++ dumpArrRest xs lvl

def dumpObjRest : List (List Char × JsonVal) → ℕ → List Char
  | [], _ => []
  | (k, v) :: kvs, lvl =>
    ',' :: '\n' :: (pad lvl ++ dumpString k ++ ':' :: ' ' :: dumpVal v lvl) ++
      dumpObjRest kvs lvl

end

/-- Full serialization, `json.dump(data, f, ensure_ascii=False, indent=4)`. -/
def jsonDump (v : JsonVal) : List Char := dumpVal v 0

mutual

/-- Fuel bound used in the printer/parser round-trip proofs. -/
def jsize : JsonVal → ℕ
  | .null => 1
  | .bool _ => 1
  | .int _ => 1
  | .str _ => 1
  | .arr xs => 1 + jsizeL xs
  | .obj kvs => 1 + jsizeKV kvs

def jsizeL : List JsonVal → ℕ
  | [] => 0
  | x :: xs => 1 + jsize x + jsizeL xs

def jsizeKV : List (List Char × JsonVal) → ℕ
  | [] => 0
  | (_, v) :: kvs => 1 + jsize v + jsizeKV kvs

end

/-! ### The reader side: `json.load` (a standard JSON parser) -/

def isWsChar (c : Char) : Bool := c = ' ' || c = '\t' || c = '\n' || c = '\r'

def skipWs : List Char → List Char
  | [] => []
  | c :: r => if isWsChar c then skipWs r else c :: r

def hexVal (c : Char) : Option ℕ :=
  if '0' ≤ c ∧ c ≤ '9' then some (c.toNat - 48)
  else if 'a' ≤ c ∧ c ≤ 'f' then some (c.toNat - 87)
  else if 'A' ≤ c ∧ c ≤ 'F' then some (c.toNat - 55)
  else none

mutual

/-- Parse the body of a JSON string (opening quote already consumed),
returning the decoded characters and the remaining input. -/
def parseStr : List Char → Option (List Char × List Char)
  | [] => none
  | c :: r =>
    if c = '"' then some ([], r)
    else if c = '\\' then parseEsc r
    else (parseStr r).map (fun p => (c :: p.1, p.2))

/-- Parse a string escape (backslash already consumed). -/
def parseEsc : List Char → Option (List Char × List Char)
  | [] => none
  | e :: r2 =>
    if e = '"' then (parseStr r2).map (fun p => ('"' :: p.1, p.2))
    else if e = '\\' then (parseStr r2).map (fun p => ('\\' :: p.1, p.2))
    else if e = '/' then (parseStr r2).map (fun p => ('/' :: p.1, p.2))
    else if e = 'b' then (parseStr r2).map (fun p => ('\x08' :: p.1, p.2))
    else if e = 'f' then (parseStr r2).map (fun p => ('\x0c' :: p.1, p.2))
    else if e = 'n' then (parseStr r2).map (fun p => ('\x0a' :: p.1, p.2))
    else if e = 'r' then (parseStr r2).map (fun p => ('\x0d' :: p.1, p.2))
    else if e = 't' then (parseStr r2).map (fun p => ('\x09' :: p.1, p.2))
    else if e = 'u' then parseU r2
    else none

/-- Parse a `\uXXXX` escape (the `\u` already consumed). -/
def parseU : List Char → Option (List Char × List Char)
  | h1 :: h2 :: h3 :: h4 :: r3 =>
    match hexVal h1, hexVal h2, hexVal h3, hexVal h4 with
    | some a, some b, some c2, some d =>
      let n := ((a * 16 + b) * 16 + c2) * 16 + d
      if n.isValidChar then (parseStr r3).map (fun p => (Char.ofNat n :: p.1, p.2))
      else none
    | _, _, _, _ => none
  | _ => none

end

def parseDigits : List Char → ℕ → ℕ × List Char
  | [], acc => (acc, [])
  | c :: r, acc =>
    if c.isDigit then parseDigits r (acc * 10 + (c.toNat - 48)) else (acc, c :: r)

def parseNumNeg : List Char → Option (ℤ × List Char)
  | [] => none
  | c2 :: r2 =>
    if c2.isDigit then
      let p := parseDigits r2 (c2.toNat - 48)
      some (-(p.1 : ℤ), p.2)
    else none

def parseNum : List Char → Option (ℤ × List Char)
  | [] => none
  | c :: r =>
    if c = '-' then parseNumNeg r
    else if c.isDigit then
      let p := parseDigits r (c.toNat - 48)
      some ((p.1 : ℤ), p.2)
    else none

mutual

/-- Parse one JSON value, skipping leading whitespace; returns the value and
the remaining input.  `fuel` bounds the nesting recursion. -/
def parseVal : ℕ → List Char → Option (JsonVal × List Char)
  | 0, _ => none
  | fuel + 1, s =>
    match skipWs s with
    | [] => none
    | c :: r =>
      if c = 'n' then
        match r with
        | 'u' :: 'l' :: 'l' :: r2 => some (.null, r2)
        | _ => none
      else if c = 't' then
        match r with
        | 'r' :: 'u' :: 'e' :: r2 => some (.bool true, r2)
        | _ => none
      else if c = 'f' then
        match r with
        | 'a' :: 'l' :: 's' :: 'e' :: r2 => some (.bool false, r2)
        | _ => none
      else if c = '"' then (parseStr r).map (fun p => (.str p.1, p.2))
      else if c = '[' then
        match skipWs r with
        | [] => none
        | c1 :: r1 =>
          if c1 = ']' then some (.arr [], r1)
          else (parseElems fuel (c1 :: r1)).map (fun p => (.arr p.1, p.2))
      else if c = '\x7b' then
        match skipWs r with
        | [] => none
        | c1 :: r1 =>
          if c1 = '\x7d' then some (.obj [], r1)
          else (parseMembers fuel (c1 :: r1)).map (fun p => (.obj p.1, p.2))
      else (parseNum (c :: r)).map (fun p => (.int p.1, p.2))

/-- Parse the non-empty element list of a JSON array, up to and including the
closing `]`. -/
def parseElems : ℕ → List Char → Option (List JsonVal × List Char)
  | 0, _ => none
  | fuel + 1, s =>
    match parseVal fuel s with
    | none => none
    | some (v, r) =>
      match skipWs r with
      | [] => none
      | c :: r2 =>
        if c = ',' then (parseElems fuel r2).map (fun p => (v :: p.1, p.2))
        else if c = ']' then some ([v], r2)
        else none

/-- Parse the non-empty member list of a JSON object, up to and including the
closing brace. -/
def parseMembers : ℕ → List Char → Option (List (List Char × JsonVal) × List Char)
  | 0, _ => none
  | fuel + 1, s =>
    match skipWs s with
    | [] => none
    | c :: r =>
      if c = '"' then
        match parseStr r with
        | none => none
        | some (k, r2) =>
          match skipWs r2 with
          | [] => none
          | c2 :: r3 =>
            if c2 = ':' then
              match parseVal fuel r3 with
              | none => none
              | some (v, r4) =>
                match skipWs r4 with
                | [] => none
                | c3 :: r5 =>
                  if c3 = ',' then
                    (parseMembers fuel r5).map (fun p => ((k, v) :: p.1, p.2))
                  else if c3 = '\x7d' then some ([(k, v)], r5)
                  else none
            else none
      else none

end

/-- Model of `json.load`/`json.loads`: parse a complete JSON document; `none` models
the `json.JSONDecodeError` raised on malformed input. -/
def jsonLoads (s : List Char) : Option JsonVal :=
  match parseVal (s.length + 1) s with
  | some (v, rest) => if (skipWs rest).isEmpty then some v else none
  | none => none

/-! ### Round-trip: `jsonLoads (jsonDump v) = some v` -/

/-- The input does not continue with a digit (so a just-parsed number is not
extended). -/
def delimOk : List Char → Prop
  | [] => True
  | c :: _ => c.isDigit = false

lemma digitChar_isDigit {n : ℕ} (h : n < 10) : (digitChar n).isDigit = true := by
  interval_cases n <;> decide

lemma digitChar_toNat {n : ℕ} (h : n < 10) : (digitChar n).toNat = 48 + n := by
  interval_cases n <;> decide

lemma isDigit_ne_dash {c : Char} (h : c.isDigit = true) : ¬ c = '-' := by
  intro rfl_eq; rw [rfl_eq] at h; exact absurd h (by decide)

lemma natToDecAux_ne_nil {fuel n : ℕ} (h : n < fuel) : natToDecAux fuel n ≠ [] := by
  cases fuel with
  | zero => omega
  | succ fuel' =>
    rw [natToDecAux]
    by_cases h10 : n < 10
    · simp [h10]
    · simp [h10]

lemma natToDecAux_digits {fuel : ℕ} :
    ∀ {n : ℕ}, n < fuel → ∀ c ∈ natToDecAux fuel n, c.isDigit = true := by
  induction fuel with
  | zero => intro n h; omega
  | succ fuel' ih =>
    intro n h c hc
    rw [natToDecAux] at hc
    by_cases h10 : n < 10
    · simp only [h10, if_true, List.mem_singleton] at hc
      exact hc ▸ digitChar_isDigit h10
    · simp only [h10, if_false, List.mem_append, List.mem_singleton] at hc
      rcases hc with hc | hc
      · exact ih (by omega) c hc
      · exact hc ▸ digitChar_isDigit (Nat.mod_lt _ (by omega))

lemma parseDigits_stop {rest : List Char} (h : delimOk rest) (acc : ℕ) :
    parseDigits rest acc = (acc, rest) := by
  cases rest with
  | nil => rfl
  | cons c r =>
    rw [parseDigits]
    simp only [delimOk] at h
    simp [h]

lemma parseDigits_natToDecAux {fuel : ℕ} :
    ∀ {n : ℕ} (rest : List Char) (acc : ℕ), n < fuel →
      parseDigits (natToDecAux fuel n ++ rest) acc =
        parseDigits rest (acc * 10 ^ (natToDecAux fuel n).length + n) := by
  induction fuel with
  | zero => intro n rest acc h; omega
  | succ fuel' ih =>
    intro n rest acc h
    rw [natToDecAux]
    by_cases h10 : n < 10
    · simp only [h10, if_true, List.singleton_append, List.length_singleton]
      rw [parseDigits]
      simp [digitChar_isDigit h10, digitChar_toNat h10]
    · simp only [h10, if_false, List.append_assoc, List.singleton_append,
        List.length_append, List.length_singleton]
      rw [ih _ _ (by omega)]
      rw [parseDigits]
      have hd : (digitChar (n % 10)).isDigit = true :=
        digitChar_isDigit (Nat.mod_lt _ (by omega))
      have hdn : (digitChar (n % 10)).toNat = 48 + n % 10 :=
        digitChar_toNat (Nat.mod_lt _ (by omega))
      simp only [hd, if_true, hdn]
      congr 1
      have hmod : n % 10 + 10 * (n / 10) = n := Nat.mod_add_div n 10
      ring_nf
      omega

lemma parseDigits_natToDec {m : ℕ} {rest : List Char} (h : delimOk rest) :
    parseDigits (natToDec m ++ rest) 0 = (m, rest) := by
  rw [natToDec, parseDigits_natToDecAux rest 0 (Nat.lt_succ_self m), Nat.zero_mul,
    Nat.zero_add, parseDigits_stop h]

lemma parseNum_natToDec {m : ℕ} {rest : List Char} (h : delimOk rest) :
    parseNum (natToDec m ++ rest) = some ((m : ℤ), rest) := by
  have hne : natToDec m ≠ [] := natToDecAux_ne_nil (Nat.lt_succ_self m)
  rcases hc : natToDec m with _ | ⟨c, t⟩
  · exact absurd hc hne
  · have hcd : c.isDigit = true := by
      refine natToDecAux_digits (Nat.lt_succ_self m) c ?_
      rw [← natToDec, hc]; simp
    have key := @parseDigits_natToDec m rest h
    rw [hc, List.cons_append, parseDigits] at key
    simp only [hcd, if_true, Nat.zero_mul, Nat.zero_add] at key
    rw [List.cons_append, parseNum]
    simp only [isDigit_ne_dash hcd, if_false, hcd, if_true, key]

lemma parseNum_intToDec {n : ℤ} {rest : List Char} (h : delimOk rest) :
    parseNum (intToDec n ++ rest) = some (n, rest) := by
  rw [intToDec]
  by_cases hn : n < 0
  · simp only [hn, if_true, List.cons_append]
    rw [parseNum]
    simp only [if_pos rfl]
    have hne : natToDec n.natAbs ≠ [] := natToDecAux_ne_nil (Nat.lt_succ_self _)
    rcases hc : natToDec n.natAbs with _ | ⟨c, t⟩
    · exact absurd hc hne
    · have hcd : c.isDigit = true := by
        refine natToDecAux_digits (Nat.lt_succ_self n.natAbs) c ?_
        rw [← natToDec, hc]; simp
      have key := @parseDigits_natToDec n.natAbs rest h
      rw [hc, List.cons_append, parseDigits] at key
      simp only [hcd, if_true, Nat.zero_mul, Nat.zero_add] at key
      simp only [if_true]
      rw [List.cons_append, parseNumNeg]
      simp only [hcd, if_true, key]
      congr 2
      omega
  · simp only [hn, if_false]
    rw [@parseNum_natToDec n.toNat rest h]
    congr 2
    omega

lemma hexVal_hexDigitChar {m : ℕ} (h : m < 16) : hexVal (hexDigitChar m) = some m := by
  interval_cases m <;> decide

lemma parseStr_quote (r : List Char) : parseStr ('"' :: r) = some ([], r) := by
  rw [parseStr.eq_def]; simp

lemma parseStr_backslash (r : List Char) : parseStr ('\\' :: r) = parseEsc r := by
  rw [parseStr.eq_def]; simp

lemma parseStr_lit {c : Char} (h1 : ¬ c = '"') (h2 : ¬ c = '\\') (r : List Char) :
    parseStr (c :: r) = (parseStr r).map (fun p => (c :: p.1, p.2)) := by
  rw [parseStr.eq_def]; simp only [h1, h2, if_false]

lemma parseEsc_dquote (r : List Char) :
    parseEsc ('"' :: r) = (parseStr r).map (fun p => ('"' :: p.1, p.2)) := by
  rw [parseEsc.eq_def]; simp

lemma parseEsc_bslash (r : List Char) :
    parseEsc ('\\' :: r) = (parseStr r).map (fun p => ('\\' :: p.1, p.2)) := by
  rw [parseEsc.eq_def]; simp

lemma parseEsc_b (r : List Char) :
    parseEsc ('b' :: r) = (parseStr r).map (fun p => ('\x08' :: p.1, p.2)) := by
  rw [parseEsc.eq_def]; simp

lemma parseEsc_t (r : List Char) :
    parseEsc ('t' :: r) = (parseStr r).map (fun p => ('\x09' :: p.1, p.2)) := by
  rw [parseEsc.eq_def]; simp

lemma parseEsc_n (r : List Char) :
    parseEsc ('n' :: r) = (parseStr r).map (fun p => ('\x0a' :: p.1, p.2)) := by
  rw [parseEsc.eq_def]; simp

lemma parseEsc_f (r : List Char) :
    parseEsc ('f' :: r) = (parseStr r).map (fun p => ('\x0c' :: p.1, p.2)) := by
  rw [parseEsc.eq_def]; simp

lemma parseEsc_r (r : List Char) :
    parseEsc ('r' :: r) = (parseStr r).map (fun p => ('\x0d' :: p.1, p.2)) := by
  rw [parseEsc.eq_def]; simp

lemma parseEsc_u (r : List Char) : parseEsc ('u' :: r) = parseU r := by
  rw [parseEsc.eq_def]; simp

lemma skipWs_ws {c : Char} (h : isWsChar c = true) (l : List Char) :
    skipWs (c :: l) = skipWs l := by
  rw [skipWs]; simp [h]

lemma skipWs_cons_nonWs {c : Char} (h : isWsChar c = false) (l : List Char) :
    skipWs (c :: l) = c :: l := by
  rw [skipWs]; simp [h]

lemma skipWs_pad (n : ℕ) (l : List Char) : skipWs (pad n ++ l) = skipWs l := by
  rw [pad]
  induction 4 * n with
  | zero => rw [List.replicate_zero, List.nil_append]
  | succ m ih =>
    rw [List.replicate_succ, List.cons_append, skipWs_ws (by decide)]
    exact ih

lemma skipWs_idem (l : List Char) : skipWs (skipWs l) = skipWs l := by
  induction l with
  | nil => rfl
  | cons c r ih =>
    by_cases h : isWsChar c = true
    · rw [skipWs_ws h, ih]
    · have h' : isWsChar c = false := by
        cases hc : isWsChar c
        · rfl
        · exact absurd hc h
      rw [skipWs_cons_nonWs h', skipWs_cons_nonWs h']

lemma ne_of_isDigit {c : Char} (h : c.isDigit = true) {d : Char}
    (hd : d.isDigit = false) : ¬ c = d := by
  intro e; rw [e, hd] at h; cases h

lemma isWsChar_of_isDigit {c : Char} (h : c.isDigit = true) : isWsChar c = false := by
  rw [isWsChar]
  have h1 : ¬ c = ' ' := ne_of_isDigit h (by decide)
  have h2 : ¬ c = '\t' := ne_of_isDigit h (by decide)
  have h3 : ¬ c = '\n' := ne_of_isDigit h (by decide)
  have h4 : ¬ c = '\x0d' := ne_of_isDigit h (by decide)
  simp [h1, h2, h3, h4]

/-- First characters that a serialized JSON value can start with. -/
def goodFirst (c : Char) : Prop :=
  c = 'n' ∨ c = 't' ∨ c = 'f' ∨ c = '"' ∨ c = '[' ∨ c = '\x7b' ∨ c = '-' ∨
    c.isDigit = true

lemma natToDec_first {m : ℕ} : ∃ c t, natToDec m = c :: t ∧ c.isDigit = true := by
  have hne : natToDec m ≠ [] := natToDecAux_ne_nil (Nat.lt_succ_self m)
  rcases hc : natToDec m with _ | ⟨c, t⟩
  · exact absurd hc hne
  · refine ⟨c, t, rfl, ?_⟩
    refine natToDecAux_digits (Nat.lt_succ_self m) c ?_
    rw [← natToDec, hc]; simp

lemma intToDec_first {n : ℤ} :
    ∃ c t, intToDec n = c :: t ∧ (c = '-' ∨ c.isDigit = true) := by
  rw [intToDec]
  by_cases hn : n < 0
  · exact ⟨'-', natToDec n.natAbs, by simp [hn], Or.inl rfl⟩
  · obtain ⟨c, t, hct, hcd⟩ := @natToDec_first n.toNat
    exact ⟨c, t, by simp [hn, hct], Or.inr hcd⟩

lemma dumpVal_first (v : JsonVal) (lvl : ℕ) :
    ∃ c t, dumpVal v lvl = c :: t ∧ goodFirst c := by
  cases v with
  | null => exact ⟨'n', _, rfl, Or.inl rfl⟩
  | bool b =>
    cases b with
    | true => exact ⟨'t', _, rfl, by rw [goodFirst]; tauto⟩
    | false => exact ⟨'f', _, rfl, by rw [goodFirst]; tauto⟩
  | int n =>
    obtain ⟨c, t, hct, hc⟩ := @intToDec_first n
    exact ⟨c, t, by rw [dumpVal, hct], by rw [goodFirst]; tauto⟩
  | str s => exact ⟨'"', _, rfl, by rw [goodFirst]; tauto⟩
  | arr xs =>
    cases xs with
    | nil => exact ⟨'[', _, rfl, by rw [goodFirst]; tauto⟩
    | cons x xs => exact ⟨'[', _, rfl, by rw [goodFirst]; tauto⟩
  | obj kvs =>
    cases kvs with
    | nil => exact ⟨'\x7b', _, rfl, by rw [goodFirst]; tauto⟩
    | cons kv kvs =>
      obtain ⟨k, v⟩ := kv
      exact ⟨'\x7b', _, rfl, by rw [goodFirst]; tauto⟩

lemma goodFirst_not_ws {c : Char} (h : goodFirst c) : isWsChar c = false := by
  rw [goodFirst] at h
  rcases h with rfl | rfl | rfl | rfl | rfl | rfl | rfl | h
  · decide
  · decide
  · decide
  · decide
  · decide
  · decide
  · decide
  · exact isWsChar_of_isDigit h

lemma goodFirst_ne_rbracket {c : Char} (h : goodFirst c) : ¬ c = ']' := by
  rw [goodFirst] at h
  rcases h with rfl | rfl | rfl | rfl | rfl | rfl | rfl | h
  · decide
  · decide
  · decide
  · decide
  · decide
  · decide
  · decide
  · exact ne_of_isDigit h (by decide)

lemma goodFirst_ne_rbrace {c : Char} (h : goodFirst c) : ¬ c = '\x7d' := by
  rw [goodFirst] at h
  rcases h with rfl | rfl | rfl | rfl | rfl | rfl | rfl | h
  · decide
  · decide
  · decide
  · decide
  · decide
  · decide
  · decide
  · exact ne_of_isDigit h (by decide)

lemma skipWs_dumpVal (v : JsonVal) (lvl : ℕ) (rest : List Char) :
    skipWs (dumpVal v lvl ++ rest) = dumpVal v lvl ++ rest := by
  obtain ⟨c, t, hct, hgood⟩ := dumpVal_first v lvl
  rw [hct, List.cons_append, skipWs_cons_nonWs (goodFirst_not_ws hgood)]

lemma delimOk_cons {c : Char} (h : c.isDigit = false) (l : List Char) :
    delimOk (c :: l) := h

/-- The escaping done by `json.dump(..., ensure_ascii=False)` is undone by the
string parser: round-trip for string bodies. -/
lemma parseStr_escString (s : List Char) (rest : List Char) :
    parseStr (escString s ++ '"' :: rest) = some (s, rest) := by
  induction s with
  | nil => rw [escString, List.nil_append, parseStr_quote]
  | cons c cs ih =>
    rw [escString, List.append_assoc, escChar]
    by_cases h1 : c = '"'
    · subst h1
      simp only [eq_self_iff_true, if_true, List.cons_append, List.nil_append]
      rw [parseStr_backslash, parseEsc_dquote, ih]
      rfl
    · rw [if_neg h1]
      by_cases h2 : c = '\\'
      · subst h2
        simp only [eq_self_iff_true, if_true, List.cons_append, List.nil_append]
        rw [parseStr_backslash, parseEsc_bslash, ih]
        rfl
      · rw [if_neg h2]
        by_cases h3 : c = '\x08'
        · subst h3
          simp only [eq_self_iff_true, if_true, List.cons_append, List.nil_append]
          rw [parseStr_backslash, parseEsc_b, ih]
          rfl
        · rw [if_neg h3]
          by_cases h4 : c = '\x09'
          · subst h4
            simp only [eq_self_iff_true, if_true, List.cons_append, List.nil_append]
            rw [parseStr_backslash, parseEsc_t, ih]
            rfl
          · rw [if_neg h4]
            by_cases h5 : c = '\x0a'
            · subst h5
              simp only [eq_self_iff_true, if_true, List.cons_append, List.nil_append]
              rw [parseStr_backslash, parseEsc_n, ih]
              rfl
            · rw [if_neg h5]
              by_cases h6 : c = '\x0c'
              · subst h6
                simp only [eq_self_iff_true, if_true, List.cons_append, List.nil_append]
                rw [parseStr_backslash, parseEsc_f, ih]
                rfl
              · rw [if_neg h6]
                by_cases h7 : c = '\x0d'
                · subst h7
                  simp only [eq_self_iff_true, if_true, List.cons_append, List.nil_append]
                  rw [parseStr_backslash, parseEsc_r, ih]
                  rfl
                · rw [if_neg h7]
                  by_cases h8 : c.toNat < 32
                  · simp only [h8, if_true, List.cons_append, List.nil_append]
                    rw [parseStr_backslash, parseEsc_u, parseU]
                    have hv1 : hexVal '0' = some 0 := by decide
                    have hv2 : hexVal (hexDigitChar (c.toNat / 16)) =
                        some (c.toNat / 16) := hexVal_hexDigitChar (by omega)
                    have hv3 : hexVal (hexDigitChar (c.toNat % 16)) =
                        some (c.toNat % 16) := hexVal_hexDigitChar (Nat.mod_lt _ (by omega))
                    rw [hv1, hv2, hv3]
                    have hn : ((0 * 16 + 0) * 16 + c.toNat / 16) * 16 + c.toNat % 16 =
                        c.toNat := by omega
                    simp only [hn]
                    have hvalid : c.toNat.isValidChar := Or.inl (by omega)
                    simp only [hvalid, if_true, ih]
                    simp [Char.ofNat_toNat]
                  · simp only [h8, if_false, List.cons_append, List.nil_append]
                    rw [parseStr_lit h1 h2, ih]
                    rfl

lemma parseVal_succ (fuel : ℕ) (s : List Char) :
    parseVal (fuel + 1) s =
      (match skipWs s with
      | [] => none
      | c :: r =>
        if c = 'n' then
          match r with
          | 'u' :: 'l' :: 'l' :: r2 => some (.null, r2)
          | _ => none
        else if c = 't' then
          match r with
          | 'r' :: 'u' :: 'e' :: r2 => some (.bool true, r2)
          | _ => none
        else if c = 'f' then
          match r with
          | 'a' :: 'l' :: 's' :: 'e' :: r2 => some (.bool false, r2)
          | _ => none
        else if c = '"' then (parseStr r).map (fun p => (.str p.1, p.2))
        else if c = '[' then
          match skipWs r with
          | [] => none
          | c1 :: r1 =>
            if c1 = ']' then some (.arr [], r1)
            else (parseElems fuel (c1 :: r1)).map (fun p => (.arr p.1, p.2))
        else if c = '\x7b' then
          match skipWs r with
          | [] => none
          | c1 :: r1 =>
            if c1 = '\x7d' then some (.obj [], r1)
            else (parseMembers fuel (c1 :: r1)).map (fun p => (.obj p.1, p.2))
        else (parseNum (c :: r)).map (fun p => (.int p.1, p.2)) :
        Option (JsonVal × List Char)) := rfl

lemma parseElems_succ (fuel : ℕ) (s : List Char) :
    parseElems (fuel + 1) s =
      (match parseVal fuel s with
      | none => none
      | some (v, r) =>
        match skipWs r with
        | [] => none
        | c :: r2 =>
          if c = ',' then (parseElems fuel r2).map (fun p => (v :: p.1, p.2))
          else if c = ']' then some ([v], r2)
          else none : Option (List JsonVal × List Char)) := rfl

lemma parseMembers_succ (fuel : ℕ) (s : List Char) :
    parseMembers (fuel + 1) s =
      (match skipWs s with
      | [] => none
      | c :: r =>
        if c = '"' then
          match parseStr r with
          | none => none
          | some (k, r2) =>
            match skipWs r2 with
            | [] => none
            | c2 :: r3 =>
              if c2 = ':' then
                match parseVal fuel r3 with
                | none => none
                | some (v, r4) =>
                  match skipWs r4 with
                  | [] => none
                  | c3 :: r5 =>
                    if c3 = ',' then
                      (parseMembers fuel r5).map (fun p => ((k, v) :: p.1, p.2))
                    else if c3 = '\x7d' then some ([(k, v)], r5)
                    else none
              else none
        else none : Option (List (List Char × JsonVal) × List Char)) := rfl

lemma parseVal_ws (fuel : ℕ) (s : List Char) :
    parseVal fuel s = parseVal fuel (skipWs s) := by
  cases fuel with
  | zero => rfl
  | succ f => rw [parseVal_succ, parseVal_succ, skipWs_idem]

lemma parseElems_ws (fuel : ℕ) (s : List Char) :
    parseElems fuel s = parseElems fuel (skipWs s) := by
  cases fuel with
  | zero => rfl
  | succ f => rw [parseElems_succ, parseElems_succ, ← parseVal_ws]

lemma parseMembers_ws (fuel : ℕ) (s : List Char) :
    parseMembers fuel s = parseMembers fuel (skipWs s) := by
  cases fuel with
  | zero => rfl
  | succ f => rw [parseMembers_succ, parseMembers_succ, skipWs_idem]

lemma parseVal_arr_go (fuel : ℕ) {X0 : List Char} {c1 : Char} {r1 : List Char}
    (h : skipWs X0 = c1 :: r1) (hne : ¬ c1 = ']') :
    parseVal (fuel + 1) ('[' :: X0) =
      (parseElems fuel (c1 :: r1)).map (fun p => (JsonVal.arr p.1, p.2)) := by
  rw [parseVal.eq_def]
  simp only [skipWs_cons_nonWs (by decide : isWsChar '[' = false)]
  simp [h, hne]

lemma parseVal_obj_go (fuel : ℕ) {X0 : List Char} {c1 : Char} {r1 : List Char}
    (h : skipWs X0 = c1 :: r1) (hne : ¬ c1 = '\x7d') :
    parseVal (fuel + 1) ('\x7b' :: X0) =
      (parseMembers fuel (c1 :: r1)).map (fun p => (JsonVal.obj p.1, p.2)) := by
  rw [parseVal.eq_def]
  simp only [skipWs_cons_nonWs (by decide : isWsChar '\x7b' = false)]
  simp [h, hne]

lemma parseVal_num_go (fuel : ℕ) {c : Char} (X : List Char) (h1 : ¬ c = 'n')
    (h2 : ¬ c = 't') (h3 : ¬ c = 'f') (h4 : ¬ c = '"') (h5 : ¬ c = '[')
    (h6 : ¬ c = '\x7b') (hws : isWsChar c = false) :
    parseVal (fuel + 1) (c :: X) =
      (parseNum (c :: X)).map (fun p => (JsonVal.int p.1, p.2)) := by
  rw [parseVal.eq_def]
  simp only [skipWs_cons_nonWs hws]
  simp [h1, h2, h3, h4, h5, h6]

lemma jsize_pos (v : JsonVal) : 1 ≤ jsize v := by
  cases v <;> simp [jsize]

lemma parseVal_quote_go (fuel : ℕ) (X : List Char) :
    parseVal (fuel + 1) ('"' :: X) = (parseStr X).map (fun p => (JsonVal.str p.1, p.2)) := rfl

lemma skipWs_dumpString (k X : List Char) :
    skipWs (dumpString k ++ X) = dumpString k ++ X := by
  rw [dumpString, List.cons_append, skipWs_cons_nonWs (by decide)]

/-- Joint round-trip statement for values, array element lists and object
member lists, by strong induction on the printed value's size. -/
lemma parse_dump_rec (N : ℕ) :
    (∀ v lvl fuel rest, jsize v ≤ N → jsize v ≤ fuel → delimOk rest →
      parseVal fuel (dumpVal v lvl ++ rest) = some (v, rest)) ∧
    (∀ x xs lvl lvl2 fuel rest, jsizeL (x :: xs) ≤ N → jsizeL (x :: xs) ≤ fuel →
      delimOk rest →
      parseElems fuel (dumpVal x lvl ++ (dumpArrRest xs lvl ++
        ('\n' :: (pad lvl2 ++ (']' :: rest))))) = some (x :: xs, rest)) ∧
    (∀ k v kvs lvl lvl2 fuel rest, jsizeKV ((k, v) :: kvs) ≤ N →
      jsizeKV ((k, v) :: kvs) ≤ fuel → delimOk rest →
      parseMembers fuel (dumpString k ++ (':' :: ' ' :: (dumpVal v lvl ++
        (dumpObjRest kvs lvl ++ ('\n' :: (pad lvl2 ++ ('\x7d' :: rest))))))) =
        some ((k, v) :: kvs, rest)) := by
  induction N with
  | zero =>
    refine ⟨?_, ?_, ?_⟩
    · intro v _ _ _ hN _ _
      exact absurd hN (by have := jsize_pos v; omega)
    · intro x xs _ _ _ _ hN _ _
      have e : jsizeL (x :: xs) = 1 + jsize x + jsizeL xs := rfl
      exact absurd hN (by omega)
    · intro k v kvs _ _ _ _ hN _ _
      have e : jsizeKV ((k, v) :: kvs) = 1 + jsize v + jsizeKV kvs := rfl
      exact absurd hN (by omega)
  | succ N ih =>
    obtain ⟨ihV, ihA, ihO⟩ := ih
    refine ⟨?_, ?_, ?_⟩
    · -- parseVal on a dumped value
      intro v lvl fuel rest hN hf hrest
      cases fuel with
      | zero => exact absurd hf (by have := jsize_pos v; omega)
      | succ f =>
        cases v with
        | null => rfl
        | bool b => cases b <;> rfl
        | int n =>
          obtain ⟨c, t, hct, hc⟩ := @intToDec_first n
          have hdump : dumpVal (.int n) lvl = intToDec n := rfl
          rw [hdump, hct, List.cons_append]
          have h1 : ¬ c = 'n' := by
            rcases hc with rfl | hcd
            · decide
            · exact ne_of_isDigit hcd (by decide)
          have h2 : ¬ c = 't' := by
            rcases hc with rfl | hcd
            · decide
            · exact ne_of_isDigit hcd (by decide)
          have h3 : ¬ c = 'f' := by
            rcases hc with rfl | hcd
            · decide
            · exact ne_of_isDigit hcd (by decide)
          have h4 : ¬ c = '"' := by
            rcases hc with rfl | hcd
            · decide
            · exact ne_of_isDigit hcd (by decide)
          have h5 : ¬ c = '[' := by
            rcases hc with rfl | hcd
            · decide
            · exact ne_of_isDigit hcd (by decide)
          have h6 : ¬ c = '\x7b' := by
            rcases hc with rfl | hcd
            · decide
            · exact ne_of_isDigit hcd (by decide)
          have hws : isWsChar c = false := by
            rcases hc with rfl | hcd
            · decide
            · exact isWsChar_of_isDigit hcd
          rw [parseVal_num_go f (t ++ rest) h1 h2 h3 h4 h5 h6 hws]
          rw [← List.cons_append, ← hct, parseNum_intToDec hrest]
          rfl
        | str s =>
          have hdump : dumpVal (.str s) lvl ++ rest =
              '"' :: (escString s ++ ('"' :: rest)) := by
            simp [dumpVal, dumpString, List.append_assoc]
          rw [hdump, parseVal_quote_go, parseStr_escString]
          rfl
        | arr xs =>
          cases xs with
          | nil => rfl
          | cons x xs =>
            have e : jsize (.arr (x :: xs)) = 1 + jsizeL (x :: xs) := rfl
            have hfL : jsizeL (x :: xs) ≤ f := by omega
            have hNL : jsizeL (x :: xs) ≤ N := by omega
            have hdump : dumpVal (.arr (x :: xs)) lvl ++ rest =
                '[' :: ('\n' :: (pad (lvl + 1) ++ (dumpVal x (lvl + 1) ++
                  (dumpArrRest xs (lvl + 1) ++
                    ('\n' :: (pad lvl ++ (']' :: rest))))))) := by
              simp [dumpVal, List.append_assoc]
            rw [hdump]
            obtain ⟨c1, r1, hc1, hgood1⟩ := dumpVal_first x (lvl + 1)
            have hskip : skipWs ('\n' :: (pad (lvl + 1) ++ (dumpVal x (lvl + 1) ++
                (dumpArrRest xs (lvl + 1) ++ ('\n' :: (pad lvl ++ (']' :: rest))))))) =
                c1 :: (r1 ++ (dumpArrRest xs (lvl + 1) ++
                  ('\n' :: (pad lvl ++ (']' :: rest))))) := by
              rw [skipWs_ws (by decide), skipWs_pad, skipWs_dumpVal, hc1,
                List.cons_append]
            rw [parseVal_arr_go f hskip (goodFirst_ne_rbracket hgood1)]
            rw [← List.cons_append, ← hc1]
            rw [ihA x xs (lvl + 1) lvl f rest hNL hfL hrest]
            rfl
        | obj kvs =>
          cases kvs with
          | nil => rfl
          | cons kv kvs =>
            obtain ⟨k, v⟩ := kv
            have e : jsize (.obj ((k, v) :: kvs)) = 1 + jsizeKV ((k, v) :: kvs) := rfl
            have hfKV : jsizeKV ((k, v) :: kvs) ≤ f := by omega
            have hNKV : jsizeKV ((k, v) :: kvs) ≤ N := by omega
            have hdump : dumpVal (.obj ((k, v) :: kvs)) lvl ++ rest =
                '\x7b' :: ('\n' :: (pad (lvl + 1) ++ (dumpString k ++ (':' :: ' ' ::
                  (dumpVal v (lvl + 1) ++ (dumpObjRest kvs (lvl + 1) ++
                    ('\n' :: (pad lvl ++ ('\x7d' :: rest))))))))) := by
              simp [dumpVal, List.append_assoc]
            rw [hdump]
            have hskip : skipWs ('\n' :: (pad (lvl + 1) ++ (dumpString k ++ (':' :: ' ' ::
                (dumpVal v (lvl + 1) ++ (dumpObjRest kvs (lvl + 1) ++
                  ('\n' :: (pad lvl ++ ('\x7d' :: rest))))))))) =
                '"' :: ((escString k ++ ['"']) ++ (':' :: ' ' ::
                  (dumpVal v (lvl + 1) ++ (dumpObjRest kvs (lvl + 1) ++
                    ('\n' :: (pad lvl ++ ('\x7d' :: rest))))))) := by
              rw [skipWs_ws (by decide), skipWs_pad, skipWs_dumpString, dumpString,
                List.cons_append]
            rw [parseVal_obj_go f hskip (by decide)]
            rw [← List.cons_append]
            have hback : ('"' :: (escString k ++ ['"'])) = dumpString k := rfl
            rw [hback]
            rw [ihO k v kvs (lvl + 1) lvl f rest hNKV hfKV hrest]
            rfl
    · -- parseElems on dumped elements
      intro x xs lvl lvl2 fuel rest hN hf hrest
      cases fuel with
      | zero =>
        have e : jsizeL (x :: xs) = 1 + jsize x + jsizeL xs := rfl
        exact absurd hf (by omega)
      | succ f =>
        have e : jsizeL (x :: xs) = 1 + jsize x + jsizeL xs := rfl
        have hfx : jsize x ≤ f := by omega
        have hNx : jsize x ≤ N := by omega
        have hYdelim : delimOk (dumpArrRest xs lvl ++
            ('\n' :: (pad lvl2 ++ (']' :: rest)))) := by
          cases xs with
          | nil => exact (by decide : ('\n' : Char).isDigit = false)
          | cons y ys => exact (by decide : (',' : Char).isDigit = false)
        rw [parseElems_succ]
        rw [ihV x lvl f _ hNx hfx hYdelim]
        cases xs with
        | nil =>
          have hsY : skipWs (dumpArrRest ([] : List JsonVal) lvl ++
              ('\n' :: (pad lvl2 ++ (']' :: rest)))) = ']' :: rest := by
            rw [dumpArrRest, List.nil_append, skipWs_ws (by decide), skipWs_pad,
              skipWs_cons_nonWs (by decide)]
          simp [hsY]
        | cons y ys =>
          have e1 : jsizeL (x :: y :: ys) = 1 + jsize x + jsizeL (y :: ys) := rfl
          have hfL2 : jsizeL (y :: ys) ≤ f := by omega
          have hNL2 : jsizeL (y :: ys) ≤ N := by omega
          have hY2 : dumpArrRest (y :: ys) lvl ++ ('\n' :: (pad lvl2 ++ (']' :: rest))) =
              ',' :: ('\n' :: ((pad lvl ++ dumpVal y lvl) ++ (dumpArrRest ys lvl ++
                ('\n' :: (pad lvl2 ++ (']' :: rest)))))) := by
            simp [dumpArrRest, List.append_assoc]
          rw [hY2]
          have hsY : skipWs (',' :: ('\n' :: ((pad lvl ++ dumpVal y lvl) ++
              (dumpArrRest ys lvl ++ ('\n' :: (pad lvl2 ++ (']' :: rest))))))) =
              ',' :: ('\n' :: ((pad lvl ++ dumpVal y lvl) ++ (dumpArrRest ys lvl ++
                ('\n' :: (pad lvl2 ++ (']' :: rest)))))) :=
            skipWs_cons_nonWs (by decide) _
          simp only [hsY]
          have hskipR2 : skipWs ('\n' :: ((pad lvl ++ dumpVal y lvl) ++
              (dumpArrRest ys lvl ++ ('\n' :: (pad lvl2 ++ (']' :: rest)))))) =
              dumpVal y lvl ++ (dumpArrRest ys lvl ++
                ('\n' :: (pad lvl2 ++ (']' :: rest)))) := by
            rw [skipWs_ws (by decide), List.append_assoc, skipWs_pad, skipWs_dumpVal]
          rw [parseElems_ws f, hskipR2]
          rw [ihA y ys lvl lvl2 f rest hNL2 hfL2 hrest]
          simp
    · -- parseMembers on dumped members
      intro k v kvs lvl lvl2 fuel rest hN hf hrest
      cases fuel with
      | zero =>
        have e : jsizeKV ((k, v) :: kvs) = 1 + jsize v + jsizeKV kvs := rfl
        exact absurd hf (by omega)
      | succ f =>
        have e : jsizeKV ((k, v) :: kvs) = 1 + jsize v + jsizeKV kvs := rfl
        have hfv : jsize v ≤ f := by omega
        have hNv : jsize v ≤ N := by omega
        rw [parseMembers_succ]
        have hs : dumpString k ++ (':' :: ' ' :: (dumpVal v lvl ++ (dumpObjRest kvs lvl ++
            ('\n' :: (pad lvl2 ++ ('\x7d' :: rest)))))) =
            '"' :: (escString k ++ ('"' :: (':' :: ' ' :: (dumpVal v lvl ++
              (dumpObjRest kvs lvl ++ ('\n' :: (pad lvl2 ++ ('\x7d' :: rest)))))))) := by
          simp [dumpString, List.append_assoc]
        rw [hs, skipWs_cons_nonWs (by decide)]
        simp only [if_pos rfl]
        rw [parseStr_escString]
        have hsZ : skipWs (':' :: ' ' :: (dumpVal v lvl ++ (dumpObjRest kvs lvl ++
            ('\n' :: (pad lvl2 ++ ('\x7d' :: rest)))))) =
            ':' :: ' ' :: (dumpVal v lvl ++ (dumpObjRest kvs lvl ++
              ('\n' :: (pad lvl2 ++ ('\x7d' :: rest))))) := skipWs_cons_nonWs (by decide) _
        simp only [hsZ]
        have hW1delim : delimOk (dumpObjRest kvs lvl ++
            ('\n' :: (pad lvl2 ++ ('\x7d' :: rest)))) := by
          cases kvs with
          | nil => exact (by decide : ('\n' : Char).isDigit = false)
          | cons kv ks => exact (by decide : (',' : Char).isDigit = false)
        have hpv : parseVal f (' ' :: (dumpVal v lvl ++ (dumpObjRest kvs lvl ++
            ('\n' :: (pad lvl2 ++ ('\x7d' :: rest)))))) = some (v, dumpObjRest kvs lvl ++
            ('\n' :: (pad lvl2 ++ ('\x7d' :: rest)))) := by
          rw [parseVal_ws f, skipWs_ws (by decide), skipWs_dumpVal]
          exact ihV v lvl f _ hNv hfv hW1delim
        simp only [if_pos rfl, hpv]
        cases kvs with
        | nil =>
          have hsW : skipWs (dumpObjRest ([] : List (List Char × JsonVal)) lvl ++
              ('\n' :: (pad lvl2 ++ ('\x7d' :: rest)))) = '\x7d' :: rest := by
            rw [dumpObjRest, List.nil_append, skipWs_ws (by decide), skipWs_pad,
              skipWs_cons_nonWs (by decide)]
          simp [hsW]
        | cons kv2 ks =>
          obtain ⟨k2, v2⟩ := kv2
          have e1 : jsizeKV ((k, v) :: (k2, v2) :: ks) =
              1 + jsize v + jsizeKV ((k2, v2) :: ks) := rfl
          have hfKV2 : jsizeKV ((k2, v2) :: ks) ≤ f := by omega
          have hNKV2 : jsizeKV ((k2, v2) :: ks) ≤ N := by omega
          have hW2 : dumpObjRest ((k2, v2) :: ks) lvl ++
              ('\n' :: (pad lvl2 ++ ('\x7d' :: rest))) =
              ',' :: ('\n' :: ((pad lvl ++ (dumpString k2 ++ (':' :: ' ' ::
                dumpVal v2 lvl))) ++ (dumpObjRest ks lvl ++
                  ('\n' :: (pad lvl2 ++ ('\x7d' :: rest)))))) := by
            simp [dumpObjRest, List.append_assoc]
          rw [hW2]
          have hsW : skipWs (',' :: ('\n' :: ((pad lvl ++ (dumpString k2 ++ (':' :: ' ' ::
              dumpVal v2 lvl))) ++ (dumpObjRest ks lvl ++ ('\n' :: (pad lvl2 ++
                ('\x7d' :: rest))))))) =
              ',' :: ('\n' :: ((pad lvl ++ (dumpString k2 ++ (':' :: ' ' ::
                dumpVal v2 lvl))) ++ (dumpObjRest ks lvl ++
                  ('\n' :: (pad lvl2 ++ ('\x7d' :: rest)))))) :=
            skipWs_cons_nonWs (by decide) _
          simp only [hsW]
          have hskipR5 : skipWs ('\n' :: ((pad lvl ++ (dumpString k2 ++ (':' :: ' ' ::
              dumpVal v2 lvl))) ++ (dumpObjRest ks lvl ++ ('\n' :: (pad lvl2 ++
                ('\x7d' :: rest)))))) =
              dumpString k2 ++ (':' :: ' ' :: (dumpVal v2 lvl ++ (dumpObjRest ks lvl ++
                ('\n' :: (pad lvl2 ++ ('\x7d' :: rest)))))) := by
            rw [skipWs_ws (by decide), List.append_assoc, skipWs_pad, List.append_assoc,
              skipWs_dumpString]
            simp [List.append_assoc]
          rw [parseMembers_ws f, hskipR5]
          rw [ihO k2 v2 ks lvl lvl2 f rest hNKV2 hfKV2 hrest]
          simp

/-- The pretty-printer output of one JSON value parses back to that value,
leaving any non-digit-leading suffix untouched. -/
theorem parse_dumpVal (v : JsonVal) (lvl fuel : ℕ) (rest : List Char)
    (hf : jsize v ≤ fuel) (hrest : delimOk rest) :
    parseVal fuel (dumpVal v lvl ++ rest) = some (v, rest) :=
  (parse_dump_rec (jsize v)).1 v lvl fuel rest le_rfl hf hrest

/-- The fuel `s.length + 1` used by `jsonLoads` dominates `jsize`: every
printed value is at least as long as its size. -/
lemma jsize_le_dump_rec (N : ℕ) :
    (∀ v lvl, jsize v ≤ N → jsize v ≤ (dumpVal v lvl).length) ∧
    (∀ xs lvl, jsizeL xs ≤ N → jsizeL xs ≤ (dumpArrRest xs lvl).length) ∧
    (∀ kvs lvl, jsizeKV kvs ≤ N → jsizeKV kvs ≤ (dumpObjRest kvs lvl).length) := by
  induction N with
  | zero =>
    refine ⟨?_, ?_, ?_⟩
    · intro v _ hN
      exact absurd hN (by have := jsize_pos v; omega)
    · intro xs lvl hN
      cases xs with
      | nil => simp [jsizeL]
      | cons x xs =>
        have e : jsizeL (x :: xs) = 1 + jsize x + jsizeL xs := rfl
        exact absurd hN (by omega)
    · intro kvs lvl hN
      cases kvs with
      | nil => simp [jsizeKV]
      | cons kv ks =>
        obtain ⟨k, v⟩ := kv
        have e : jsizeKV ((k, v) :: ks) = 1 + jsize v + jsizeKV ks := rfl
        exact absurd hN (by omega)
  | succ N ih =>
    obtain ⟨ihV, ihA, ihO⟩ := ih
    refine ⟨?_, ?_, ?_⟩
    · intro v lvl hN
      cases v with
      | null =>
        have h1 : jsize JsonVal.null = 1 := rfl
        have h2 : (dumpVal JsonVal.null lvl).length = 4 := rfl
        omega
      | bool b =>
        cases b with
        | true =>
          have h1 : jsize (JsonVal.bool true) = 1 := rfl
          have h2 : (dumpVal (JsonVal.bool true) lvl).length = 4 := rfl
          omega
        | false =>
          have h1 : jsize (JsonVal.bool false) = 1 := rfl
          have h2 : (dumpVal (JsonVal.bool false) lvl).length = 5 := rfl
          omega
      | int n =>
        obtain ⟨c, t, hct, _⟩ := @intToDec_first n
        have h1 : jsize (JsonVal.int n) = 1 := rfl
        have h2 : dumpVal (JsonVal.int n) lvl = intToDec n := rfl
        rw [h1, h2, hct]
        simp
      | str s =>
        have h1 : jsize (JsonVal.str s) = 1 := rfl
        have h2 : dumpVal (JsonVal.str s) lvl = dumpString s := rfl
        rw [h1, h2, dumpString]
        simp
      | arr xs =>
        cases xs with
        | nil =>
          have h1 : jsize (JsonVal.arr []) = 1 := rfl
          have h2 : (dumpVal (JsonVal.arr []) lvl).length = 2 := rfl
          omega
        | cons x xs =>
          have e : jsize (JsonVal.arr (x :: xs)) = 1 + jsizeL (x :: xs) := rfl
          have e2 : jsizeL (x :: xs) = 1 + jsize x + jsizeL xs := rfl
          have hx : jsize x ≤ (dumpVal x (lvl + 1)).length := ihV x (lvl + 1) (by omega)
          have hxs : jsizeL xs ≤ (dumpArrRest xs (lvl + 1)).length :=
            ihA xs (lvl + 1) (by omega)
          have e3 : (dumpVal (JsonVal.arr (x :: xs)) lvl).length =
              2 + ((pad (lvl + 1)).length + (dumpVal x (lvl + 1)).length) +
                (dumpArrRest xs (lvl + 1)).length + (1 + ((pad lvl).length + 1)) := by
            simp [dumpVal, List.length_append]
            omega
          omega
      | obj kvs =>
        cases kvs with
        | nil =>
          have h1 : jsize (JsonVal.obj []) = 1 := rfl
          have h2 : (dumpVal (JsonVal.obj []) lvl).length = 2 := rfl
          omega
        | cons kv ks =>
          obtain ⟨k, v⟩ := kv
          have e : jsize (JsonVal.obj ((k, v) :: ks)) = 1 + jsizeKV ((k, v) :: ks) := rfl
          have e2 : jsizeKV ((k, v) :: ks) = 1 + jsize v + jsizeKV ks := rfl
          have hv : jsize v ≤ (dumpVal v (lvl + 1)).length := ihV v (lvl + 1) (by omega)
          have hks : jsizeKV ks ≤ (dumpObjRest ks (lvl + 1)).length :=
            ihO ks (lvl + 1) (by omega)
          have e3 : (dumpVal (JsonVal.obj ((k, v) :: ks)) lvl).length =
              2 + ((pad (lvl + 1)).length + ((dumpString k).length +
                (2 + (dumpVal v (lvl + 1)).length))) +
                (dumpObjRest ks (lvl + 1)).length + (1 + ((pad lvl).length + 1)) := by
            simp [dumpVal, List.length_append]
            omega
          omega
    · intro xs lvl hN
      cases xs with
      | nil => simp [jsizeL]
      | cons x xs =>
        have e : jsizeL (x :: xs) = 1 + jsize x + jsizeL xs := rfl
        have hx : jsize x ≤ (dumpVal x lvl).length := ihV x lvl (by omega)
        have hxs : jsizeL xs ≤ (dumpArrRest xs lvl).length := ihA xs lvl (by omega)
        have e3 : (dumpArrRest (x :: xs) lvl).length =
            2 + ((pad lvl).length + (dumpVal x lvl).length) +
              (dumpArrRest xs lvl).length := by
          simp [dumpArrRest, List.length_append]
          omega
        omega
    · intro kvs lvl hN
      cases kvs with
      | nil => simp [jsizeKV]
      | cons kv ks =>
        obtain ⟨k, v⟩ := kv
        have e : jsizeKV ((k, v) :: ks) = 1 + jsize v + jsizeKV ks := rfl
        have hv : jsize v ≤ (dumpVal v lvl).length := ihV v lvl (by omega)
        have hks : jsizeKV ks ≤ (dumpObjRest ks lvl).length := ihO ks lvl (by omega)
        have e3 : (dumpObjRest ((k, v) :: ks) lvl).length =
            2 + ((pad lvl).length + ((dumpString k).length +
              (2 + (dumpVal v lvl).length))) + (dumpObjRest ks lvl).length := by
          simp [dumpObjRest, List.length_append]
          omega
        omega

lemma jsize_le_dumpVal (v : JsonVal) (lvl : ℕ) : jsize v ≤ (dumpVal v lvl).length :=
  (jsize_le_dump_rec (jsize v)).1 v lvl le_rfl

/-- JSON round-trip: parsing the serialization of any JSON value gives back
exactly that value. -/
theorem jsonLoads_jsonDump (v : JsonVal) : jsonLoads (jsonDump v) = some v := by
  rw [jsonLoads, jsonDump]
  have h := parse_dumpVal v 0 ((dumpVal v 0).length + 1) []
    (le_trans (jsize_le_dumpVal v 0) (Nat.le_succ _)) trivial
  rw [List.append_nil] at h
  rw [h]
  rfl

/-! ## Fetch-cache-persist pipeline

The file system is a map from paths to file contents; the HTTP layer is an
oracle giving, for each `(category, pageSize)` query, either a transport/HTTP
failure (`requests` raises and `except RequestException` returns `None`) or a
200 response with a parsed JSON body. -/

/-- A file system: path → contents. -/
def FileSys : Type := List Char → Option (List Char)

def RAW_ARTICLES_DIR : List Char := "data/raw/articles".data

def CACHE_DIR : List Char := "data/raw/api_cache".data

/-- Model of `os.path.join` for two non-empty string components (as used here: the
left component never ends in a slash). -/
def pyJoin (a b : List Char) : List Char :=
  if b.head? = some '/' then b else a ++ ('/' :: b)

/-- Model of `save_api_response_to_cache(cache_filename, data)` (lines 74–78):
`json.dump(data, f, ensure_ascii=False, indent=4)`, overwriting
unconditionally. -/
def save_api_response_to_cache (fs : FileSys) (cache_filename : List Char)
    (data : JsonVal) : FileSys :=
  fun n => if n = cache_filename then some (jsonDump data) else fs n

/-- Model of `load_api_response_from_cache(cache_filename)` (lines 81–88): `.ok none`
when the file does not exist, `.ok (some v)` for parsed content, and
`.error ()` models `json.load` raising on malformed content (uncaught). -/
def load_api_response_from_cache (fs : FileSys) (cache_filename : List Char) :
    Except Unit (Option JsonVal) :=
  match fs cache_filename with
  | none => .ok none
  | some content =>
    match jsonLoads content with
    | some v => .ok (some v)
    | none => .error ()

/-- Outcome of the single `requests.get` call for one query. -/
inductive HttpResult where
  | transportError
  | ok (body : JsonVal)

/-- Result of `fetch_single_query_from_newsapi`: the returned value, the
file-system state after the call, and whether an HTTP request was issued. -/
structure SingleResult where
  result : Option JsonVal
  fs : FileSys
  httpCalled : Bool

/-- The path `os.path.join(CACHE_DIR, f"{today_date_str}_{category}_{page_size}.json")`
with the f-string rendering of the date, category and integer page size. -/
def full_cache_filename (today category : List Char) (page_size : ℤ) : List Char :=
  pyJoin CACHE_DIR ((today ++ ('_' :: (category ++ ('_' :: intToDec page_size)))) ++
    ".json".data)

/-- The `try:` block of `fetch_single_query_from_newsapi` (lines 101–115).

* A `requests` exception (transport error, or the `raise_for_status` error on
  a non-2xx response, or a JSON decode error of the body — all
  `RequestException`s) is caught: print and return `None`.
* On a parsed 200 body, `data.get("status")` is compared with `"ok"`; only a
  string `"ok"` passes.  `data.get` on a non-dict body raises
  `AttributeError`, which `except requests.exceptions.RequestException` does
  not catch → `.error ()`.
* Only a `status == "ok"` body is written to the cache. -/
def fetchHttp (http : HttpResult) (fs : FileSys) (cache_path : List Char) :
    Except Unit SingleResult :=
  match http with
  | .transportError => .ok ⟨none, fs, true⟩
  | .ok body =>
    match body with
    | .obj kvs =>
      match List.lookup "status".data kvs with
      | some (.str sv) =>
        if sv = "ok".data then
          .ok ⟨some body, save_api_response_to_cache fs cache_path body, true⟩
        else .ok ⟨none, fs, true⟩
      | _ => .ok ⟨none, fs, true⟩
    | _ => .error ()

/-- Model of `fetch_single_query_from_newsapi(category, page_size)` (lines 91–115).
Note the hit test is `if cached_data:` — Python truthiness, not presence:
a present file holding falsy JSON (e.g. `\x7b\x7d`) falls through to the
HTTP request. -/
def fetch_single_query_from_newsapi (today : List Char) (http : HttpResult)
    (fs : FileSys) (category : List Char) (page_size : ℤ) :
    Except Unit SingleResult :=
  let full := full_cache_filename today category page_size
  match load_api_response_from_cache fs full with
  | .error e => .error e
  | .ok (some cached_data) =>
    if truthy cached_data then .ok ⟨some cached_data, fs, false⟩
    else fetchHttp http fs full
  | .ok none => fetchHttp http fs full

/-! ### Claims C8, C3, C4 -/

/-- Claim C8: cache round-trip.  Storing any JSON-serializable object with
`save_api_response_to_cache` under a filename and loading the same filename
with `load_api_response_from_cache` returns an object deeply equal to the
original (numbers are modelled as integers; `json.dump` writes with
`ensure_ascii=False, indent=4`, and `json.load` parses it back). -/
theorem cache_round_trip (fs : FileSys) (cache_filename : List Char)
    (data : JsonVal) :
    load_api_response_from_cache
      (save_api_response_to_cache fs cache_filename data) cache_filename =
      .ok (some data) := by
  rw [load_api_response_from_cache, save_api_response_to_cache]
  simp [jsonLoads_jsonDump]

/-- Claim C3, counterexample to the claim as stated.  The cache file for
today's key is present and holds stored data — the empty JSON object
`\x7b\x7d` — yet `fetch_single_query_from_newsapi` issues the HTTP request
(`httpCalled = true`) and does not return the cached object: the hit test is
`if cached_data:`, and an empty dict is falsy in Python. -/
theorem fetch_cache_hit_cex :
    fetch_single_query_from_newsapi "2026-02-03".data HttpResult.transportError
      (fun _ => some ("\x7b\x7d".data)) "business".data 5 =
      .ok ⟨none, (fun _ => some ("\x7b\x7d".data)), true⟩ := rfl

/-- Claim C3 (amended): if the cache file for today's key is present and
holds *truthy* stored data (any non-empty object — in particular every
`status: "ok"` response the pipeline itself stores), then
`fetch_single_query_from_newsapi` returns that cached object unchanged, the
file system is untouched, and no HTTP request is issued (the result does not
depend on the `http` oracle and `httpCalled = false`).  A present file
holding falsy JSON (empty object or array, `0`, `false`, `null`, `""`) is
treated as a miss. -/
theorem fetch_cache_hit_truthy (today : List Char) (http : HttpResult)
    (fs : FileSys) (category : List Char) (page_size : ℤ) (content : List Char)
    (v : JsonVal)
    (hfile : fs (full_cache_filename today category page_size) = some content)
    (hparse : jsonLoads content = some v) (htruthy : truthy v = true) :
    fetch_single_query_from_newsapi today http fs category page_size =
      .ok ⟨some v, fs, false⟩ := by
  rw [fetch_single_query_from_newsapi, load_api_response_from_cache, hfile]
  simp [hparse, htruthy]

/-- Witness for `fetch_cache_hit_truthy`: a cache whose files all hold
`true` (a truthy JSON value). -/
theorem fetch_cache_hit_truthy_witness :
    ((fun _ => some ("true".data) : FileSys)
        (full_cache_filename "2026-02-03".data "science".data 7) =
      some ("true".data) ∧
     jsonLoads "true".data = some (.bool true) ∧ truthy (.bool true) = true) ∧
    fetch_single_query_from_newsapi "2026-02-03".data HttpResult.transportError
      (fun _ => some ("true".data)) "science".data 7 =
      .ok ⟨some (.bool true), (fun _ => some ("true".data)), false⟩ :=
  ⟨⟨rfl, rfl, rfl⟩,
    fetch_cache_hit_truthy "2026-02-03".data HttpResult.transportError
      (fun _ => some ("true".data)) "science".data 7 "true".data (.bool true)
      rfl rfl rfl⟩

/-- Claim C4: on a cache miss (no file at today's key), if the HTTP request
fails at transport/HTTP level (a `RequestException`: connection error,
`raise_for_status`, body decode error), or the 200 body is an object whose
`status` field is not the string `"ok"` (missing, non-string, or another
string), then `fetch_single_query_from_newsapi` returns `None`, makes no
retry (the code contains a single `requests.get` call; exactly one request
is recorded), and writes nothing to the cache: the file system is returned
unchanged. -/
theorem fetch_miss_failure_no_cache (today : List Char) (http : HttpResult)
    (fs : FileSys) (category : List Char) (page_size : ℤ)
    (hmiss : fs (full_cache_filename today category page_size) = none)
    (hfail : http = .transportError ∨ ∃ kvs, http = .ok (.obj kvs) ∧
      ∀ sv, List.lookup "status".data kvs = some (JsonVal.str sv) →
        ¬ sv = "ok".data) :
    fetch_single_query_from_newsapi today http fs category page_size =
      .ok ⟨none, fs, true⟩ := by
  rw [fetch_single_query_from_newsapi, load_api_response_from_cache, hmiss]
  rcases hfail with rfl | ⟨kvs, rfl, hstatus⟩
  · rfl
  · rw [fetchHttp]
    rcases hlk : List.lookup "status".data kvs with _ | u
    · rfl
    · cases u with
      | str sv => simp [hstatus sv hlk]
      | null => rfl
      | bool b => rfl
      | int n => rfl
      | arr xs => rfl
      | obj kvs2 => rfl

/-- Witness for `fetch_miss_failure_no_cache`: empty cache, transport
error. -/
theorem fetch_miss_failure_no_cache_witness :
    ((fun _ => none : FileSys)
        (full_cache_filename "2026-02-03".data "health".data 9) = none ∧
     (HttpResult.transportError = HttpResult.transportError ∨
      ∃ kvs, HttpResult.transportError = HttpResult.ok (.obj kvs) ∧
        ∀ sv, List.lookup "status".data kvs = some (JsonVal.str sv) →
          ¬ sv = "ok".data)) ∧
    fetch_single_query_from_newsapi "2026-02-03".data HttpResult.transportError
      (fun _ => none) "health".data 9 = .ok ⟨none, (fun _ => none), true⟩ :=
  ⟨⟨rfl, Or.inl rfl⟩,
    fetch_miss_failure_no_cache "2026-02-03".data HttpResult.transportError
      (fun _ => none) "health".data 9 rfl (Or.inl rfl)⟩

/-! ## `fetch_all_articles` (lines 118–159) -/

/-- State threaded through the category/article loops of
`fetch_all_articles`: the file system, `all_fetched_articles`,
`article_urls` (the Python set, as its insertion-ordered list of elements —
membership is what matters), and a ghost log of article-file write events
(each write also updates `fs`). -/
structure AllState where
  fs : FileSys
  all_fetched_articles : List JsonVal
  article_urls : List JsonVal
  writes : List (List Char × JsonVal)

/-- Python `==` on the hashable JSON atoms that can enter the URL set
(`True == 1`, `False == 0`). -/
def pyAtomEq : JsonVal → JsonVal → Bool
  | .null, .null => true
  | .bool a, .bool b => a == b
  | .bool a, .int b => (if a then (1 : ℤ) else 0) == b
  | .int a, .bool b => a == (if b then (1 : ℤ) else 0)
  | .int a, .int b => a == b
  | .str a, .str b => a == b
  | _, _ => false

/-- Python hashability of a JSON value (lists and dicts are unhashable; a
set-membership test on them raises `TypeError`). -/
def pyHashable : JsonVal → Bool
  | .arr _ => false
  | .obj _ => false
  | _ => true

/-- Membership test `article_url in article_urls` (Python set membership). -/
def seenContains (seen : List JsonVal) (u : JsonVal) : Bool :=
  seen.any (fun w => pyAtomEq u w)

/-- The body of the inner `for article in data["articles"]` loop
(lines 128–157) for one article.

* `article.get("url")` on a non-dict raises `AttributeError` → `.error ()`;
  a missing `url` key and an explicit JSON `null` both give Python `None`
  (`JsonVal.null`).
* The membership test on an unhashable value raises `TypeError`.
* A duplicate URL is skipped silently: the state is returned unchanged.
* Otherwise the article is appended, its URL added to the set, and the file
  name computed: `hashlib.md5(article_url.encode()).hexdigest()` for a
  truthy URL (`.encode` on a non-string raises), else
  `article.get("title", f"untitled_{len(article_urls)}")[:50]` (slicing a
  present non-string title raises; the `len` is taken after the `add`).
* The article JSON is then written to `<dir>/<name>.json`. -/
def processArticle (today_output_dir : List Char) (md5 : List Char → List Char)
    (st : AllState) (article : JsonVal) : Except Unit AllState :=
  match article with
  | .obj kvs =>
    let article_url : JsonVal :=
      match List.lookup "url".data kvs with
      | some u => u
      | none => .null
    if pyHashable article_url = false then .error ()
    else if seenContains st.article_urls article_url then .ok st
    else
      let fetched := st.all_fetched_articles ++ [article]
      let seen := st.article_urls ++ [article_url]
      match
        (if truthy article_url then
          match article_url with
          | .str u => Except.ok (md5 u)
          | _ => Except.error ()
        else
          match List.lookup "title".data kvs with
          | some (.str t) => Except.ok (t.take 50)
          | some _ => Except.error ()
          | none => Except.ok (("untitled_".data ++ natToDec seen.length).take 50) :
          Except Unit (List Char)) with
      | .error e => .error e
      | .ok article_filename =>
        let article_filepath := pyJoin today_output_dir (article_filename ++ ".json".data)
        .ok ⟨fun n => if n = article_filepath then some (jsonDump (.obj kvs)) else st.fs n,
          fetched, seen, st.writes ++ [(article_filepath, .obj kvs)]⟩
  | _ => .error ()

/-- The inner loop over `data["articles"]`. -/
def processArticles (today_output_dir : List Char) (md5 : List Char → List Char) :
    AllState → List JsonVal → Except Unit AllState
  | st, [] => .ok st
  | st, a :: rest =>
    match processArticle today_output_dir md5 st a with
    | .error e => .error e
    | .ok st2 => processArticles today_output_dir md5 st2 rest

/-- One iteration of the outer `for category, num_articles in zip(...)` loop:
fetch the category (threading the cache file system), then
`if data and data.get("articles"):` — short-circuit truthiness; `data.get`
on a non-dict raises, and iterating a truthy non-list `articles` value
raises at the first `article.get`. -/
def fetchCategoryStep (today today_output_dir : List Char)
    (md5 : List Char → List Char) (http : List Char → ℤ → HttpResult)
    (st : AllState) (category : List Char) (num_articles : ℤ) :
    Except Unit AllState :=
  match fetch_single_query_from_newsapi today (http category num_articles) st.fs
    category num_articles with
  | .error e => .error e
  | .ok r =>
    let st2 : AllState := ⟨r.fs, st.all_fetched_articles, st.article_urls, st.writes⟩
    match r.result with
    | none => .ok st2
    | some data =>
      if truthy data then
        match data with
        | .obj kvs =>
          match List.lookup "articles".data kvs with
          | none => .ok st2
          | some articlesVal =>
            if truthy articlesVal then
              match articlesVal with
              | .arr articles => processArticles today_output_dir md5 st2 articles
              | _ => .error ()
            else .ok st2
        | _ => .error ()
      else .ok st2

/-- The outer loop over the zipped `(category, num_articles)` pairs. -/
def fetchCategories (today today_output_dir : List Char)
    (md5 : List Char → List Char) (http : List Char → ℤ → HttpResult) :
    AllState → List (List Char × ℤ) → Except Unit AllState
  | st, [] => .ok st
  | st, (category, num_articles) :: rest =>
    match fetchCategoryStep today today_output_dir md5 http st category num_articles with
    | .error e => .error e
    | .ok st2 => fetchCategories today today_output_dir md5 http st2 rest

/-- The body of `fetch_all_articles` from `all_fetched_articles = []` on
(lines 122–159), parameterized by the already-computed output directory:
`zip(categories, articles_per_category, strict=False)` pairs the two
sequences up to the shorter one. -/
def fetch_all_loop (today today_output_dir : List Char)
    (md5 : List Char → List Char) (http : List Char → ℤ → HttpResult)
    (fs : FileSys) (categories : List (List Char))
    (articles_per_category : List ℤ) : Except Unit AllState :=
  fetchCategories today today_output_dir md5 http ⟨fs, [], [], []⟩
    (categories.zip articles_per_category)

/-- Model of `os.path.join(RAW_ARTICLES_DIR, today_date_str)` at line 120:
`today_date_str = datetime.today().date()` is a `datetime.date` object, not
a `str`, and `os.path.join` applies `os.fspath` to it, which raises
`TypeError: expected str, bytes or os.PathLike object, not datetime.date`.
(Contrast `fetch_single_query_from_newsapi`, which interpolates the date
into an f-string.) -/
def os_path_join_str_date (a : List Char) (today_date : List Char) :
    Except Unit (List Char) :=
  .error ()

/-- `fetch_all_articles(categories, articles_per_category)` (lines 118–159):
computes `today_output_dir = os.path.join(RAW_ARTICLES_DIR, today_date_str)`
— which raises `TypeError` — and then runs the fetch loop. -/
def fetch_all_articles (today : List Char) (md5 : List Char → List Char)
    (http : List Char → ℤ → HttpResult) (fs : FileSys)
    (categories : List (List Char)) (articles_per_category : List ℤ) :
    Except Unit AllState :=
  match os_path_join_str_date RAW_ARTICLES_DIR today with
  | .error e => .error e
  | .ok today_output_dir =>
    fetch_all_loop today today_output_dir md5 http fs categories
      articles_per_category

/-! ### Claims C2 and C10 -/

/-- Claim C2, evaluation at the claimed scenario.  Two categories each
return one article whose URL duplicates the other's; the claim says exactly
1 unique article is reported and exactly 1 article file is written.  In
fact `fetch_all_articles` raises `TypeError` immediately:
`today_output_dir = os.path.join(RAW_ARTICLES_DIR, today_date_str)` passes
the `datetime.date` object to `os.path.join`, so nothing is fetched,
reported or written. -/
theorem fetch_all_articles_always_raises :
    fetch_all_articles "2026-02-03".data (fun u => u)
      (fun _ _ => HttpResult.ok (.obj [("status".data, .str "ok".data),
        ("articles".data,
          .arr [.obj [("url".data, .str "http://example.com/a".data)]])]))
      (fun _ => none) ["business".data, "science".data] [1, 1] = .error () := rfl

lemma zip_take_min {α β : Type _} (l1 : List α) (l2 : List β) :
    l1.zip l2 = (l1.take (min l1.length l2.length)).zip
      (l2.take (min l1.length l2.length)) := by
  induction l1 generalizing l2 with
  | nil => simp
  | cons a t ih =>
    cases l2 with
    | nil => simp
    | cons b u =>
      simp only [List.length_cons, Nat.succ_min_succ, List.take_succ_cons,
        List.zip_cons_cons]
      rw [← ih u]

/-- Claim C10, counterexample to the claim as stated: with input sequences
of different lengths (2 categories, 3 quotas) `fetch_all_articles` does
raise an error — the unconditional `TypeError` from
`os.path.join(RAW_ARTICLES_DIR, today_date_str)` (see C2) — rather than
returning normally with the surplus ignored. -/
theorem fetch_all_length_mismatch_cex :
    fetch_all_articles "2026-02-03".data (fun u => u)
      (fun _ _ => HttpResult.transportError) (fun _ => none)
      ["business".data, "science".data] [1, 2, 3] = .error () := rfl

/-- Claim C10 (amended): the pairing itself is non-strict and raises no
length-mismatch error: the fetch loop of `fetch_all_articles` (everything
after the output-directory computation) behaves identically on the full
input sequences and on the sequences truncated to their first
`min(len(categories), len(articles_per_category))` elements — the surplus
elements of the longer sequence are silently ignored
(`zip(..., strict=False)`).  The enclosing function independently raises
`TypeError` before pairing; see C2. -/
theorem fetch_all_pairs_nonstrict (today today_output_dir : List Char)
    (md5 : List Char → List Char) (http : List Char → ℤ → HttpResult)
    (fs : FileSys) (categories : List (List Char))
    (articles_per_category : List ℤ) :
    fetch_all_loop today today_output_dir md5 http fs categories
      articles_per_category =
    fetch_all_loop today today_output_dir md5 http fs
      (categories.take (min categories.length articles_per_category.length))
      (articles_per_category.take
        (min categories.length articles_per_category.length)) := by
  rw [fetch_all_loop, fetch_all_loop, ← zip_take_min]

/-! ### Claim C9 -/

/-- The Python value of `article.get("url")` is `None`: the key is missing
or holds an explicit JSON `null`. -/
def url_is_none : JsonVal → Bool
  | .obj kvs =>
    match List.lookup "url".data kvs with
    | some .null => true
    | none => true
    | some _ => false
  | _ => false

lemma pyAtomEq_null_of_ne {u : JsonVal} (h : ¬ u = JsonVal.null) :
    pyAtomEq .null u = false := by
  cases u with
  | null => exact absurd rfl h
  | bool b => rfl
  | int n => rfl
  | str t => rfl
  | arr xs => rfl
  | obj kvs => rfl

lemma seenContains_append (l : List JsonVal) (u w : JsonVal) :
    seenContains (l ++ [u]) w = (seenContains l w || pyAtomEq w u) := by
  simp [seenContains, List.any_append]

def nullWriteInv (st : AllState) : Prop :=
  (st.writes.filter (fun w => url_is_none w.2)).length ≤
    (if seenContains st.article_urls .null then 1 else 0)

lemma nullWriteInv_extend_none (st : AllState) (kvs : List (List Char × JsonVal))
    (hn : url_is_none (JsonVal.obj kvs) = true)
    (hseen : ¬ seenContains st.article_urls .null = true)
    (hinv : nullWriteInv st) (fsx : FileSys) (p : List Char) :
    nullWriteInv ⟨fsx, st.all_fetched_articles ++ [.obj kvs],
      st.article_urls ++ [JsonVal.null], st.writes ++ [(p, .obj kvs)]⟩ := by
  rw [nullWriteInv] at hinv ⊢
  simp only [seenContains_append, List.filter_append, List.length_append]
  rw [if_neg hseen] at hinv
  have h1 : List.filter (fun w => url_is_none w.2)
      ([(p, JsonVal.obj kvs)] : List (List Char × JsonVal)) = [(p, .obj kvs)] := by
    simp [hn]
  rw [h1]
  have h2 : pyAtomEq JsonVal.null JsonVal.null = true := rfl
  simp only [h2, Bool.or_true, if_true, List.length_singleton]
  omega

lemma nullWriteInv_extend_some (st : AllState) (kvs : List (List Char × JsonVal))
    (u : JsonVal) (hu : ¬ u = JsonVal.null)
    (hn : url_is_none (JsonVal.obj kvs) = false)
    (hinv : nullWriteInv st) (fsx : FileSys) (p : List Char) :
    nullWriteInv ⟨fsx, st.all_fetched_articles ++ [.obj kvs],
      st.article_urls ++ [u], st.writes ++ [(p, .obj kvs)]⟩ := by
  rw [nullWriteInv] at hinv ⊢
  simp only [seenContains_append, List.filter_append, List.length_append]
  have h1 : List.filter (fun w => url_is_none w.2)
      ([(p, JsonVal.obj kvs)] : List (List Char × JsonVal)) = [] := by
    simp [hn]
  rw [h1, pyAtomEq_null_of_ne hu]
  simp only [Bool.or_false, List.length_nil]
  omega

lemma processArticle_nullWriteInv (dir : List Char) (md5 : List Char → List Char)
    (st : AllState) (a : JsonVal) (st2 : AllState)
    (h : processArticle dir md5 st a = .ok st2) (hinv : nullWriteInv st) :
    nullWriteInv st2 := by
  cases a with
  | null => simp [processArticle] at h
  | bool b => simp [processArticle] at h
  | int n => simp [processArticle] at h
  | str t => simp [processArticle] at h
  | arr xs => simp [processArticle] at h
  | obj kvs =>
    rw [processArticle] at h
    rcases hlk : List.lookup "url".data kvs with _ | u
    · -- url key absent: article_url is None
      simp only [hlk, pyHashable] at h
      have hn : url_is_none (JsonVal.obj kvs) = true := by rw [url_is_none, hlk]
      by_cases hseen : seenContains st.article_urls JsonVal.null = true
      · simp only [hseen, if_true, if_false, Bool.true_eq_false, reduceIte] at h
        cases h
        exact hinv
      · simp only [hseen, truthy, Bool.false_eq_true, if_false, reduceIte] at h
        rcases hlt : List.lookup "title".data kvs with _ | t
        · simp only [hlt] at h
          cases h
          exact nullWriteInv_extend_none st kvs hn hseen hinv _ _
        · simp only [hlt] at h
          cases t with
          | str tv =>
            simp only [] at h
            cases h
            exact nullWriteInv_extend_none st kvs hn hseen hinv _ _
          | null => cases h
          | bool b => cases h
          | int n => cases h
          | arr xs => cases h
          | obj kvs2 => cases h
    · -- url key present with value u
      simp only [hlk] at h
      by_cases hu : u = JsonVal.null
      · subst hu
        simp only [pyHashable] at h
        have hn : url_is_none (JsonVal.obj kvs) = true := by rw [url_is_none, hlk]
        by_cases hseen : seenContains st.article_urls JsonVal.null = true
        · simp only [hseen, reduceIte] at h
          cases h
          exact hinv
        · simp only [hseen, truthy, reduceIte] at h
          rcases hlt : List.lookup "title".data kvs with _ | t
          · simp only [hlt] at h
            cases h
            exact nullWriteInv_extend_none st kvs hn hseen hinv _ _
          · simp only [hlt] at h
            cases t with
            | str tv =>
              simp only [] at h
              cases h
              exact nullWriteInv_extend_none st kvs hn hseen hinv _ _
            | null => cases h
            | bool b => cases h
            | int n => cases h
            | arr xs => cases h
            | obj kvs2 => cases h
      · have hn : url_is_none (JsonVal.obj kvs) = false := by
          rw [url_is_none, hlk]
          cases u with
          | null => exact absurd rfl hu
          | bool b => rfl
          | int n => rfl
          | str t => rfl
          | arr xs => rfl
          | obj kvs2 => rfl
        by_cases hh : pyHashable u = false
        · simp only [hh, reduceIte] at h
          cases h
        · simp only [hh, reduceIte] at h
          by_cases hseen : seenContains st.article_urls u = true
          · simp only [hseen, reduceIte] at h
            cases h
            exact hinv
          · simp only [hseen, reduceIte] at h
            by_cases ht : truthy u = true
            · simp only [ht, reduceIte] at h
              cases u with
              | str uv =>
                simp only [] at h
                cases h
                exact nullWriteInv_extend_some st kvs (.str uv) hu hn hinv _ _
              | null => exact absurd rfl hu
              | bool b => cases h
              | int n => cases h
              | arr xs => simp [pyHashable] at hh
              | obj kvs2 => simp [pyHashable] at hh
            · simp only [ht, reduceIte] at h
              rcases hlt : List.lookup "title".data kvs with _ | t
              · simp only [hlt] at h
                cases h
                exact nullWriteInv_extend_some st kvs u hu hn hinv _ _
              · simp only [hlt] at h
                cases t with
                | str tv =>
                  simp only [] at h
                  cases h
                  exact nullWriteInv_extend_some st kvs u hu hn hinv _ _
                | null => cases h
                | bool b => cases h
                | int n => cases h
                | arr xs => cases h
                | obj kvs2 => cases h

lemma processArticles_nullWriteInv (dir : List Char) (md5 : List Char → List Char) :
    ∀ (articles : List JsonVal) (st st2 : AllState),
      processArticles dir md5 st articles = .ok st2 → nullWriteInv st →
      nullWriteInv st2 := by
  intro articles
  induction articles with
  | nil =>
    intro st st2 h hinv
    rw [processArticles] at h
    cases h
    exact hinv
  | cons a rest ih =>
    intro st st2 h hinv
    rw [processArticles] at h
    rcases hpa : processArticle dir md5 st a with e | stMid
    · rw [hpa] at h
      cases h
    · rw [hpa] at h
      exact ih stMid st2 h (processArticle_nullWriteInv dir md5 st a stMid hpa hinv)

lemma fetchCategoryStep_nullWriteInv (today dir : List Char)
    (md5 : List Char → List Char) (http : List Char → ℤ → HttpResult)
    (st : AllState) (category : List Char) (num_articles : ℤ) (st2 : AllState)
    (h : fetchCategoryStep today dir md5 http st category num_articles = .ok st2)
    (hinv : nullWriteInv st) : nullWriteInv st2 := by
  rw [fetchCategoryStep] at h
  rcases hf : fetch_single_query_from_newsapi today (http category num_articles)
      st.fs category num_articles with e | r
  · simp only [hf] at h
    cases h
  · simp only [hf] at h
    have hinv2 : nullWriteInv
        ⟨r.fs, st.all_fetched_articles, st.article_urls, st.writes⟩ := hinv
    rcases hres : r.result with _ | data
    · rw [hres] at h
      cases h
      exact hinv2
    · rw [hres] at h
      by_cases ht : truthy data = true
      · simp only [ht, reduceIte] at h
        cases data with
        | obj kvs =>
          simp only [] at h
          rcases hart : List.lookup "articles".data kvs with _ | av
          · rw [hart] at h
            cases h
            exact hinv2
          · rw [hart] at h
            by_cases hta : truthy av = true
            · simp only [hta, reduceIte] at h
              cases av with
              | arr articles =>
                exact processArticles_nullWriteInv dir md5 articles _ st2 h hinv2
              | null => cases h
              | bool b => cases h
              | int n => cases h
              | str t => cases h
              | obj kvs2 => cases h
            · simp only [hta, reduceIte] at h
              cases h
              exact hinv2
        | null => cases h
        | bool b => cases h
        | int n => cases h
        | str t => cases h
        | arr xs => cases h
      · simp only [ht, reduceIte] at h
        cases h
        exact hinv2

lemma fetchCategories_nullWriteInv (today dir : List Char)
    (md5 : List Char → List Char) (http : List Char → ℤ → HttpResult) :
    ∀ (pairs : List (List Char × ℤ)) (st st2 : AllState),
      fetchCategories today dir md5 http st pairs = .ok st2 → nullWriteInv st →
      nullWriteInv st2 := by
  intro pairs
  induction pairs with
  | nil =>
    intro st st2 h hinv
    rw [fetchCategories] at h
    cases h
    exact hinv
  | cons p rest ih =>
    intro st st2 h hinv
    obtain ⟨category, num_articles⟩ := p
    rw [fetchCategories] at h
    rcases hstep : fetchCategoryStep today dir md5 http st category num_articles
        with e | stMid
    · rw [hstep] at h
      cases h
    · rw [hstep] at h
      exact ih stMid st2 h (fetchCategoryStep_nullWriteInv today dir md5 http st
        category num_articles stMid hstep hinv)

lemma length_filter_mono {α : Type _} (p q : α → Bool)
    (h : ∀ a, p a = true → q a = true) (l : List α) :
    (l.filter p).length ≤ (l.filter q).length := by
  induction l with
  | nil => simp
  | cons a t ih =>
    by_cases hp : p a = true
    · rw [List.filter_cons_of_pos hp, List.filter_cons_of_pos (h a hp)]
      simpa using ih
    · rw [List.filter_cons_of_neg (by simpa using hp)]
      by_cases hq : q a = true
      · rw [List.filter_cons_of_pos hq]
        simp only [List.length_cons]
        omega
      · rw [List.filter_cons_of_neg (by simpa using hq)]
        exact ih

def has_no_url : JsonVal → Bool
  | .obj kvs => (List.lookup "url".data kvs).isNone
  | _ => false

lemma has_no_url_imp (w : JsonVal) (h : has_no_url w = true) :
    url_is_none w = true := by
  cases w with
  | obj kvs =>
    rw [has_no_url] at h
    rw [url_is_none]
    rcases hlk : List.lookup "url".data kvs with _ | u
    · rfl
    · rw [hlk] at h
      simp at h
  | null => simp [has_no_url] at h
  | bool b => simp [has_no_url] at h
  | int n => simp [has_no_url] at h
  | str t => simp [has_no_url] at h
  | arr xs => simp [has_no_url] at h

/-- Claim C9: in `fetch_all_articles`'s article loop, an article with no
`url` field has the Python value `None` added to the seen-URL set, so
within a single run at most one URL-less article is ever written: (1) once
a URL-less article is processed successfully, `None` is in the set; (2) any
later article lacking a URL is silently skipped as a duplicate — the state
(files, collected list, set, writes) is returned unchanged, so it is not
written under a title-based or `untitled_<n>` filename; (3) over a whole
fetch loop run, at most one written article file belongs to an article with
no `url` field.  (The enclosing `fetch_all_articles` raises `TypeError`
before reaching this loop — see C2 — so these are properties of the loop
the function runs after the output-directory computation.) -/
theorem urlless_articles_deduped :
    (∀ (dir : List Char) (md5 : List Char → List Char) (st : AllState)
        (kvs : List (List Char × JsonVal)) (st2 : AllState),
        List.lookup "url".data kvs = none →
        processArticle dir md5 st (.obj kvs) = .ok st2 →
        seenContains st2.article_urls JsonVal.null = true) ∧
    (∀ (dir : List Char) (md5 : List Char → List Char) (st : AllState)
        (kvs : List (List Char × JsonVal)),
        seenContains st.article_urls JsonVal.null = true →
        List.lookup "url".data kvs = none →
        processArticle dir md5 st (.obj kvs) = .ok st) ∧
    (∀ (today dir : List Char) (md5 : List Char → List Char)
        (http : List Char → ℤ → HttpResult) (fs : FileSys)
        (categories : List (List Char)) (quotas : List ℤ) (st2 : AllState),
        fetch_all_loop today dir md5 http fs categories quotas = .ok st2 →
        (st2.writes.filter (fun w => has_no_url w.2)).length ≤ 1) := by
  refine ⟨?_, ?_, ?_⟩
  · intro dir md5 st kvs st2 hlk h
    rw [processArticle] at h
    simp only [hlk, pyHashable] at h
    by_cases hseen : seenContains st.article_urls JsonVal.null = true
    · simp only [hseen, reduceIte] at h
      cases h
      exact hseen
    · simp only [hseen, truthy, reduceIte] at h
      rcases hlt : List.lookup "title".data kvs with _ | t
      · simp only [hlt] at h
        cases h
        simp [seenContains_append, pyAtomEq]
      · simp only [hlt] at h
        cases t with
        | str tv =>
          simp only [] at h
          cases h
          simp [seenContains_append, pyAtomEq]
        | null => cases h
        | bool b => cases h
        | int n => cases h
        | arr xs => cases h
        | obj kvs2 => cases h
  · intro dir md5 st kvs hseen hlk
    rw [processArticle]
    simp [hlk, pyHashable, hseen]
  · intro today dir md5 http fs categories quotas st2 h
    have hinv0 : nullWriteInv ⟨fs, [], [], []⟩ := by
      rw [nullWriteInv]
      simp [seenContains]
    have hinv2 := fetchCategories_nullWriteInv today dir md5 http
      (categories.zip quotas) ⟨fs, [], [], []⟩ st2 h hinv0
    rw [nullWriteInv] at hinv2
    have hmono := length_filter_mono (fun w => has_no_url w.2)
      (fun w => url_is_none w.2) (fun w hw => has_no_url_imp w.2 hw) st2.writes
    have hle : (if seenContains st2.article_urls JsonVal.null = true then 1 else 0) ≤ 1 := by
      split
      · omega
      · omega
    omega

/-- Witness for `urlless_articles_deduped` (its second conjunct) at a
concrete state whose URL set already contains `None`. -/
theorem urlless_articles_deduped_witness :
    (seenContains [JsonVal.null] JsonVal.null = true ∧
     List.lookup "url".data ([] : List (List Char × JsonVal)) = none) ∧
    processArticle [] (fun u => u) ⟨fun _ => none, [], [JsonVal.null], []⟩
      (.obj []) = .ok ⟨fun _ => none, [], [JsonVal.null], []⟩ :=
  ⟨⟨rfl, rfl⟩, urlless_articles_deduped.2.1 [] (fun u => u)
    ⟨fun _ => none, [], [JsonVal.null], []⟩ [] rfl rfl⟩
